import Mathlib

/-! # ft-norm-header: the header renderer and the add-header action

A shallow embedding of `src/extension.js`.

JavaScript strings are sequences of UTF-16 code units; `length`, `substring`,
`padStart`, `padEnd`, `repeat` and regular expressions without the `u` flag all
count and match code units.  A string is therefore a `List Nat`, each element
one code unit.
-/

namespace FtNormHeader

/-- A JavaScript string: its UTF-16 code units, in order. -/
abbrev JSString := List Nat

/-- Code units of a source literal.  Every literal of `extension.js` has only
characters of the Basic Multilingual Plane, for which the code unit is the code
point. -/
def lit (s : String) : JSString := s.toList.map Char.toNat

/-! ## String primitives -/

/-- `" ".repeat(n)` and friends: `n` copies of the one-unit string `c`. -/
def jsRepeat (c : Nat) (n : Nat) : JSString := List.replicate n c

/-- `s.substring(0, n)` for a non-negative integer `n`. -/
def substring0 (s : JSString) (n : Nat) : JSString := s.take n

/-- `s.padEnd(n, c)` with a one-unit filler `c`. -/
def padEnd (s : JSString) (n : Nat) (c : Nat) : JSString :=
  s ++ List.replicate (n - s.length) c

/-- `s.padStart(n, c)` with a one-unit filler `c`. -/
def padStart (s : JSString) (n : Nat) (c : Nat) : JSString :=
  List.replicate (n - s.length) c ++ s

/-- `s.replace(/ /g, "~")`: every space becomes a tilde. -/
def replaceSpaces (s : JSString) : JSString :=
  s.map fun c => if c = 32 then 126 else c

/-- `lines.join("\n")`. -/
def joinLines : List JSString → JSString
  | [] => []
  | [l] => l
  | l :: ls => l ++ 10 :: joinLines ls

/-! ## `COMMENT_STYLES` and `getCommentProfile` -/

/-- An entry of `COMMENT_STYLES`. -/
structure CommentProfile where
  start : JSString
  «end» : JSString
  width : Nat
  deriving DecidableEq, Repr

def luaProfile : CommentProfile := ⟨lit "-- ", lit "--", 75⟩
def pythonProfile : CommentProfile := ⟨lit "# ", lit " #", 76⟩
def javascriptProfile : CommentProfile := ⟨lit "/* ", lit " */", 74⟩
def typescriptProfile : CommentProfile := ⟨lit "/* ", lit " */", 74⟩

/-- The four entries of the table. -/
def tableProfiles : List CommentProfile :=
  [luaProfile, pythonProfile, javascriptProfile, typescriptProfile]

/-- What `COMMENT_STYLES[languageId]` evaluates to. -/
inductive StyleLookup where
  /-- an own entry of the table -/
  | style (p : CommentProfile)
  /-- a member inherited from `Object.prototype`: a truthy value that has no
  `start`, `end` or `width` -/
  | inherited
  /-- `undefined` -/
  | undefined
  deriving DecidableEq, Repr

/-- Names that every object literal inherits from `Object.prototype`. -/
def objectPrototypeKeys : List JSString :=
  [lit "constructor", lit "__defineGetter__", lit "__defineSetter__",
   lit "hasOwnProperty", lit "__lookupGetter__", lit "__lookupSetter__",
   lit "isPrototypeOf", lit "propertyIsEnumerable", lit "toString",
   lit "valueOf", lit "__proto__", lit "toLocaleString"]

/-- `COMMENT_STYLES[languageId]`. -/
def commentStylesGet (languageId : JSString) : StyleLookup :=
  if languageId = lit "lua" then .style luaProfile
  else if languageId = lit "python" then .style pythonProfile
  else if languageId = lit "javascript" then .style javascriptProfile
  else if languageId = lit "typescript" then .style typescriptProfile
  else if languageId ∈ objectPrototypeKeys then .inherited
  else .undefined

/-- `getCommentProfile`: `COMMENT_STYLES[languageId] || COMMENT_STYLES.javascript`.
Only `undefined` is falsy among the possible lookups. -/
def getCommentProfile (languageId : JSString) : StyleLookup :=
  match commentStylesGet languageId with
  | .undefined => .style javascriptProfile
  | v => v

/-! ## `normLine` and `getTimestamp` -/

/-- `normLine`: `content.substring(0, width).padEnd(width, " ")`. -/
def normLine (content : JSString) (width : Nat) : JSString :=
  padEnd (substring0 content width) width 32

/-- The fields `getTimestamp` reads off a `Date`, in local time. -/
structure DateTime where
  /-- `getFullYear()` -/
  year : Int
  /-- `getMonth()`, 0 to 11 -/
  month : Nat
  /-- `getDate()`, 1 to 31 -/
  date : Nat
  /-- `getHours()`, 0 to 23 -/
  hours : Nat
  /-- `getMinutes()`, 0 to 59 -/
  minutes : Nat
  /-- `getSeconds()`, 0 to 59 -/
  seconds : Nat
  deriving DecidableEq, Repr

/-- The ranges of the getters of a valid `Date`. -/
def DateTime.Valid (d : DateTime) : Prop :=
  -271821 ≤ d.year ∧ d.year ≤ 275760 ∧ d.month ≤ 11 ∧ 1 ≤ d.date ∧ d.date ≤ 31 ∧
    d.hours ≤ 23 ∧ d.minutes ≤ 59 ∧ d.seconds ≤ 59

instance (d : DateTime) : Decidable d.Valid := by
  unfold DateTime.Valid; infer_instance

/-- `n.toString()` for a non-negative integer: its decimal digits. -/
def natToString (n : Nat) : JSString := (Nat.toDigits 10 n).map Char.toNat

/-- `n.toString()` for an integer, as in a template literal. -/
def intToString : Int → JSString
  | .ofNat n => natToString n
  | .negSucc n => 45 :: natToString (n + 1)

/-- `n.toString().padStart(2, "0")`. -/
def pad2 (n : Nat) : JSString := padStart (natToString n) 2 48

/-- `getTimestamp`. -/
def getTimestamp (date : DateTime) : JSString :=
  let Y := intToString date.year
  let M := pad2 (date.month + 1)
  let D := pad2 date.date
  let h := pad2 date.hours
  let m := pad2 date.minutes
  let s := pad2 date.seconds
  Y ++ lit "/" ++ M ++ lit "/" ++ D ++ lit " " ++ h ++ lit ":" ++ m ++ lit ":" ++ s

/-! ## `getHeaderString` -/

/-- The part of a `vscode.WorkspaceConfiguration` the extension reads: for each
of its four settings the user's value, or `none` when there is none.  The
values are strings, as the defaults are; a user value of another type is not
part of this model. -/
structure Settings where
  authorName : Option JSString
  authorAddress : Option JSString
  projectName : Option JSString
  copyright : Option JSString
  deriving DecidableEq, Repr

/-- `config.get(key, defaultValue)` on the looked-up value. -/
def configGet (v : Option JSString) (defaultValue : JSString) : JSString :=
  v.getD defaultValue

/-- `a || b` on `string | null`: `null` and the empty string are falsy. -/
def orElseString (a : Option JSString) (b : JSString) : JSString :=
  match a with
  | none => b
  | some [] => b
  | some s => s

/-- `" ".repeat(width).replace(/ /g, "~")`. -/
def tildeLine (width : Nat) : JSString := replaceSpaces (jsRepeat 32 width)

/-- The 15 lines `getHeaderString` builds, `now` being the `new Date()` it
reads. -/
def headerLines (fileName : JSString) (config : Settings) (commentProfile : CommentProfile)
    (createdTimestamp : Option JSString) (now : DateTime) : List JSString :=
  let updateTimestamp := getTimestamp now
  let createTimestamp := orElseString createdTimestamp updateTimestamp
  let authorName := configGet config.authorName (lit "lorem")
  let authorAddress := configGet config.authorAddress (lit "github.com/loremipsum")
  let projectName := configGet config.projectName (lit "projectName")
  let copyright := configGet config.copyright (lit "© \"projectName\" - All rights reserved")
  let fullAuthor := authorName ++ lit " <" ++ authorAddress ++ lit ">"
  let start := commentProfile.start
  let «end» := commentProfile.end
  let width := commentProfile.width
  let tildeLine := tildeLine width
  let line1 := padEnd (padStart (lit "{   o   }") ((width + 9) / 2) 32) width 32
  let line2 := padEnd (padStart (lit "|   ‾‾‾   |") ((width + 9) / 2) 32) width 32
  let line3 := padEnd (padStart (lit "/\\+_______+/\\") ((width + 11) / 2) 32) width 32
  let line4 := padEnd (padStart (lit "───   " ++ projectName ++ lit "   ───")
    ((width + projectName.length + 8) / 2) 32) width 32
  let emptyLine := jsRepeat 32 width
  let fileNameContent := normLine fileName width
  let authorContent := normLine (lit "By: " ++ fullAuthor) width
  let createdContent :=
    normLine (lit "Created: " ++ createTimestamp ++ lit " by " ++ authorName) width
  let updatedContent :=
    normLine (lit "Updated: " ++ updateTimestamp ++ lit " by " ++ authorName) width
  let copyrightContent := normLine copyright width
  [ start ++ tildeLine ++ «end»,
    start ++ line1 ++ «end»,
    start ++ line2 ++ «end»,
    start ++ line3 ++ «end»,
    start ++ line4 ++ «end»,
    start ++ emptyLine ++ «end»,
    start ++ fileNameContent ++ «end»,
    start ++ emptyLine ++ «end»,
    start ++ authorContent ++ «end»,
    start ++ emptyLine ++ «end»,
    start ++ createdContent ++ «end»,
    start ++ updatedContent ++ «end»,
    start ++ emptyLine ++ «end»,
    start ++ copyrightContent ++ «end»,
    start ++ tildeLine ++ «end» ]

/-- `getHeaderString`: `lines.join("\n") + "\n\n"`. -/
def getHeaderString (fileName : JSString) (config : Settings) (commentProfile : CommentProfile)
    (createdTimestamp : Option JSString) (now : DateTime) : JSString :=
  joinLines (headerLines fileName config commentProfile createdTimestamp now) ++ lit "\n\n"

/-! ## Regular expressions

The two patterns of `activate` use single-unit atoms only, in sequence, each
taken once or under `*` or `*?`.  Matching is the backtracking search of
ECMAScript: a quantified atom tries its alternatives in priority order and the
rest of the pattern is the continuation. -/

/-- A set of code units an atom accepts. -/
inductive CharClass where
  /-- a literal unit -/
  | unit (c : Nat)
  /-- `[\s\S]` -/
  | any
  /-- `\s` -/
  | space
  /-- `\d` -/
  | digit
  deriving DecidableEq, Repr

/-- The units `\s` accepts: WhiteSpace and LineTerminator. -/
def isSpace (c : Nat) : Bool :=
  c = 9 || c = 10 || c = 11 || c = 12 || c = 13 || c = 32 || c = 0xA0 || c = 0x1680 ||
    (0x2000 ≤ c && c ≤ 0x200A) || c = 0x2028 || c = 0x2029 || c = 0x202F || c = 0x205F ||
    c = 0x3000 || c = 0xFEFF

/-- The units `\d` accepts. -/
def isDigit (c : Nat) : Bool := 48 ≤ c && c ≤ 57

/-- Whether the atom accepts the unit. -/
def CharClass.test : CharClass → Nat → Bool
  | .unit c, x => x = c
  | .any, _ => true
  | .space, x => isSpace x
  | .digit, x => isDigit x

/-- An atom with its quantifier. -/
inductive Item where
  | one (k : CharClass)
  /-- `k*?` -/
  | lazyStar (k : CharClass)
  /-- `k*` -/
  | greedyStar (k : CharClass)
  deriving DecidableEq, Repr

/-- `k*?` followed by the continuation `cont`: first no further unit, then one
more. -/
def lazyLoop (k : CharClass) (cont : JSString → Option Nat) : JSString → Option Nat
  | [] => cont []
  | x :: s =>
    match cont (x :: s) with
    | some n => some n
    | none => if k.test x then (lazyLoop k cont s).map (· + 1) else none

/-- `k*` followed by the continuation `cont`: first one more unit, then none. -/
def greedyLoop (k : CharClass) (cont : JSString → Option Nat) : JSString → Option Nat
  | [] => cont []
  | x :: s =>
    if k.test x then
      match greedyLoop k cont s with
      | some n => some (n + 1)
      | none => cont (x :: s)
    else cont (x :: s)

/-- Match the pattern at the start of the input; the result is the length of
the match. -/
def matchHere : List Item → JSString → Option Nat
  | [] => fun _ => some 0
  | .one k :: r => fun s =>
    match s with
    | [] => none
    | x :: s => if k.test x then (matchHere r s).map (· + 1) else none
  | .lazyStar k :: r => lazyLoop k (matchHere r)
  | .greedyStar k :: r => greedyLoop k (matchHere r)

/-- `str.match(regex)` for a regex without flags: index and length of the
leftmost match. -/
def regexMatch (re : List Item) : JSString → Option (Nat × Nat)
  | [] => (matchHere re []).map fun n => (0, n)
  | x :: s =>
    match matchHere re (x :: s) with
    | some n => some (0, n)
    | none => (regexMatch re s).map fun r => (r.1 + 1, r.2)

/-- Pattern source text that stands for the units of `s` one by one: `s` with
each `*` escaped, where `s` has no other pattern-syntax character (the
delimiters of the table and the tilde have none). -/
def literal (s : JSString) : List Item := s.map fun c => .one (.unit c)

/-- The separator line `start + tildeLine + end`. -/
def separator (p : CommentProfile) : JSString := p.start ++ tildeLine p.width ++ p.end

/-- `headerRegex`: separator, `[\s\S]*?`, separator, `\s*`. -/
def headerRegex (p : CommentProfile) : List Item :=
  literal p.start ++ literal (tildeLine p.width) ++ literal p.end ++ [.lazyStar .any] ++
    literal p.start ++ literal (tildeLine p.width) ++ literal p.end ++ [.greedyStar .space]

/-- The pattern `/Created: (\d{4}\/\d{2}\/\d{2} \d{2}:\d{2}:\d{2})/`. -/
def createdRegex : List Item :=
  let d := Item.one .digit
  literal (lit "Created: ") ++
    [d, d, d, d, .one (.unit 47), d, d, .one (.unit 47), d, d, .one (.unit 32),
     d, d, .one (.unit 58), d, d, .one (.unit 58), d, d]

/-- `oldHeader.match(createdRegex)` and its group 1: the 19 units after the 9
units of `Created: `. -/
def createdMatch (oldHeader : JSString) : Option JSString :=
  match regexMatch createdRegex oldHeader with
  | some (index, _) => some ((oldHeader.drop (index + 9)).take 19)
  | none => none

/-! ## The `addHeader` command -/

/-- The prior created timestamp the command passes to `getHeaderString`, given
the match of `headerRegex` in the document. -/
def priorCreated (fileContent : JSString) (m : Option (Nat × Nat)) : Option JSString :=
  match m with
  | some (index, len) =>
    match createdMatch ((fileContent.drop index).take len) with
    | some c => if c = [] then none else some c
    | none => none
  | none => none

/-- The `newHeader` of the command: `getHeaderString` on the prior created
timestamp found in the document. -/
def newHeader (p : CommentProfile) (fileContent fileName : JSString) (config : Settings)
    (now : DateTime) : JSString :=
  getHeaderString fileName config p
    (priorCreated fileContent (regexMatch (headerRegex p) fileContent)) now

/-- The document text after the edit, given the profile.  The host applies the
edit to the text it returned from `getText()`: a replacement of the matched
range, or an insertion at offset 0.  The range is the one `positionAt` gives
for the two offsets of the match. -/
def applyHeader (p : CommentProfile) (fileContent fileName : JSString) (config : Settings)
    (now : DateTime) : JSString :=
  let m := regexMatch (headerRegex p) fileContent
  let newHeader := newHeader p fileContent fileName config now
  match m with
  | some (index, len) => fileContent.take index ++ newHeader ++ fileContent.drop (index + len)
  | none => newHeader ++ fileContent

/-- The command on an open document: `none` is the `TypeError` of
`commentProfile.start.replace` when the looked-up style has no `start`. -/
def addHeader (fileContent languageId fileName : JSString) (config : Settings)
    (now : DateTime) : Option JSString :=
  match getCommentProfile languageId with
  | .style p => some (applyHeader p fileContent fileName config now)
  | _ => none

/-! ## `getHeaderString` on setting values of any type

`config.get` hands back whatever the user stored for a key, so a setting may
hold a value that is no string.  Strings, numbers, booleans and `null` are
modelled; arrays and objects are not. -/

/-- A setting value as `config.get` returns it. -/
inductive JSValue where
  | str (s : JSString)
  /-- a number, given by the text its conversion to a string yields -/
  | num (text : JSString)
  | bool (b : Bool)
  | null
  deriving DecidableEq, Repr

/-- The text of the value inside a template literal. -/
def JSValue.toTemplate : JSValue → JSString
  | .str s => s
  | .num text => text
  | .bool true => lit "true"
  | .bool false => lit "false"
  | .null => lit "null"

/-- The four settings with values of any modelled type. -/
structure RawSettings where
  authorName : Option JSValue
  authorAddress : Option JSValue
  projectName : Option JSValue
  copyright : Option JSValue
  deriving DecidableEq, Repr

/-- A store of string values as a store of values. -/
def Settings.toRaw (config : Settings) : RawSettings :=
  ⟨config.authorName.map .str, config.authorAddress.map .str, config.projectName.map .str,
    config.copyright.map .str⟩

/-- `config.get(key, defaultValue)` on the looked-up value. -/
def rawGet (v : Option JSValue) (defaultValue : JSString) : JSValue :=
  v.getD (.str defaultValue)

/-- The 15 lines of `getHeaderString` for setting values of any modelled type;
`none` is a `TypeError`.  `projectName.length` throws on `null` and is
`undefined` on a number or boolean, which makes the `padStart` target `NaN`,
that is no padding; `content.substring` in `normLine` exists on strings
only. -/
def headerLinesRaw (fileName : JSString) (config : RawSettings)
    (commentProfile : CommentProfile) (createdTimestamp : Option JSString) (now : DateTime) :
    Option (List JSString) :=
  let updateTimestamp := getTimestamp now
  let createTimestamp := orElseString createdTimestamp updateTimestamp
  let authorName := (rawGet config.authorName (lit "lorem")).toTemplate
  let authorAddress := (rawGet config.authorAddress (lit "github.com/loremipsum")).toTemplate
  let projectName := rawGet config.projectName (lit "projectName")
  let copyright := rawGet config.copyright (lit "© \"projectName\" - All rights reserved")
  let fullAuthor := authorName ++ lit " <" ++ authorAddress ++ lit ">"
  let start := commentProfile.start
  let «end» := commentProfile.end
  let width := commentProfile.width
  let tildeLine := tildeLine width
  let line1 := padEnd (padStart (lit "{   o   }") ((width + 9) / 2) 32) width 32
  let line2 := padEnd (padStart (lit "|   ‾‾‾   |") ((width + 9) / 2) 32) width 32
  let line3 := padEnd (padStart (lit "/\\+_______+/\\") ((width + 11) / 2) 32) width 32
  let target : Option Nat :=
    match projectName with
    | .str s => some ((width + s.length + 8) / 2)
    | .num _ => some 0
    | .bool _ => some 0
    | .null => none
  match target with
  | none => none
  | some target =>
    let line4 := padEnd (padStart (lit "───   " ++ projectName.toTemplate ++ lit "   ───")
      target 32) width 32
    let emptyLine := jsRepeat 32 width
    let fileNameContent := normLine fileName width
    let authorContent := normLine (lit "By: " ++ fullAuthor) width
    let createdContent :=
      normLine (lit "Created: " ++ createTimestamp ++ lit " by " ++ authorName) width
    let updatedContent :=
      normLine (lit "Updated: " ++ updateTimestamp ++ lit " by " ++ authorName) width
    match copyright with
    | .str c =>
      let copyrightContent := normLine c width
      some
        [ start ++ tildeLine ++ «end»,
          start ++ line1 ++ «end»,
          start ++ line2 ++ «end»,
          start ++ line3 ++ «end»,
          start ++ line4 ++ «end»,
          start ++ emptyLine ++ «end»,
          start ++ fileNameContent ++ «end»,
          start ++ emptyLine ++ «end»,
          start ++ authorContent ++ «end»,
          start ++ emptyLine ++ «end»,
          start ++ createdContent ++ «end»,
          start ++ updatedContent ++ «end»,
          start ++ emptyLine ++ «end»,
          start ++ copyrightContent ++ «end»,
          start ++ tildeLine ++ «end» ]
    | _ => none

/-- `getHeaderString` for setting values of any modelled type; `none` is a
`TypeError`. -/
def getHeaderStringRaw (fileName : JSString) (config : RawSettings)
    (commentProfile : CommentProfile) (createdTimestamp : Option JSString) (now : DateTime) :
    Option JSString :=
  (headerLinesRaw fileName config commentProfile createdTimestamp now).map
    fun lines => joinLines lines ++ lit "\n\n"

/-! ## Vocabulary of the statements -/

/-- The string `S` stands in `s` at offset `i`. -/
def occursAt (S s : JSString) (i : Nat) : Prop := S <+: s.drop i

instance (S s : JSString) (i : Nat) : Decidable (occursAt S s i) := by
  unfold occursAt; infer_instance

/-- The offsets within `s` at which `S` stands, in increasing order. -/
def occurrences (S : JSString) : JSString → List Nat
  | [] => []
  | x :: s =>
    if S <+: x :: s then 0 :: (occurrences S s).map (· + 1)
    else (occurrences S s).map (· + 1)

/-- Number of whitespace units at the start of `s`. -/
def spaceRun (s : JSString) : Nat := (s.takeWhile isSpace).length

/-- The created timestamp the command shows in the Created line of the header
it writes: the `createTimestamp` of `getHeaderString` for the prior timestamp
the command passes. -/
def createdShown (fileContent languageId : JSString) (now : DateTime) : Option JSString :=
  match getCommentProfile languageId with
  | .style p =>
    some (orElseString (priorCreated fileContent (regexMatch (headerRegex p) fileContent))
      (getTimestamp now))
  | _ => none

/-- The string is a timestamp of the form `YYYY/MM/DD HH:mm:ss`: four digits,
a slash, two digits, a slash, two digits, a space, two digits, a colon, two
digits, a colon, two digits, and nothing else. -/
def hasTimestampForm : JSString → Bool
  | [y1, y2, y3, y4, s1, m1, m2, s2, d1, d2, sp, h1, h2, c1, n1, n2, c2, e1, e2] =>
    isDigit y1 && isDigit y2 && isDigit y3 && isDigit y4 && s1 = 47 &&
    isDigit m1 && isDigit m2 && s2 = 47 && isDigit d1 && isDigit d2 && sp = 32 &&
    isDigit h1 && isDigit h2 && c1 = 58 && isDigit n1 && isDigit n2 && c2 = 58 &&
    isDigit e1 && isDigit e2
  | _ => false

/-- `a <= b` on strings: the order of the code units, unit by unit. -/
def strLe : JSString → JSString → Bool
  | [], _ => true
  | _ :: _, [] => false
  | x :: s, y :: t => x < y || (x = y && strLe s t)

/-- The clock reading `a` is not later than `b`: the order of year, month, day,
hour, minute, second. -/
def DateTime.notLater (a b : DateTime) : Prop :=
  a.year < b.year ∨ (a.year = b.year ∧ (a.month < b.month ∨ (a.month = b.month ∧
    (a.date < b.date ∨ (a.date = b.date ∧ (a.hours < b.hours ∨ (a.hours = b.hours ∧
      (a.minutes < b.minutes ∨ (a.minutes = b.minutes ∧ a.seconds ≤ b.seconds)))))))))

instance (a b : DateTime) : Decidable (a.notLater b) := by
  unfold DateTime.notLater; infer_instance

/-! ## Sample inputs -/

/-- A Python file with a shebang line, a two-separator block and blank lines
before the code. -/
def pyDoc : JSString :=
  lit "#!/usr/bin/python\n" ++ separator pythonProfile ++ lit "\n# old #\n" ++
    separator pythonProfile ++ lit "\n\n  \n" ++ lit "x = 1\n"

/-- A Python file whose block has a Created line with dashes in the date. -/
def dashedDoc : JSString :=
  separator pythonProfile ++ lit "\n# Created: 2024-01-05 03:04:05 by ana #\n" ++
    separator pythonProfile ++ lit "\nx = 1\n"

/-- A Python file whose block has a Created line with dashes in the date and,
below it, a second Created line of the timestamp form. -/
def twoLinesDoc : JSString :=
  separator pythonProfile ++ lit "\n# Created: 2024-01-05 03:04:05 by ana #\n" ++
    lit "# Created: 2019/12/31 23:59:59 by bob #\n" ++
    separator pythonProfile ++ lit "\nx = 1\n"

/-- A Lua file that starts with a blank line. -/
def blankFirstDoc : JSString := lit "\nprint(1)\n"

/-- A Lua file that starts with code. -/
def codeDoc : JSString := lit "print(1)\n"

/-- Settings whose author name has the shape of a Created entry. -/
def createdLikeAuthor : Settings := ⟨some (lit "Created: 1999/01/01 00:00:00"), none, none, none⟩

/-- A file name of 75 tildes. -/
def tildeName : JSString := List.replicate 75 126

/-- Settings with a project name of 70 letters. -/
def longProject : Settings := ⟨none, none, some (List.replicate 70 120), none⟩

/-- A settings store without user values. -/
def noSettings : Settings := ⟨none, none, none, none⟩

/-- A clock reading: 5 January 2024, 03:04:05. -/
def clockA : DateTime := ⟨2024, 0, 5, 3, 4, 5⟩

/-- A later clock reading: 7 March 2025, 10:20:30. -/
def clockB : DateTime := ⟨2025, 2, 7, 10, 20, 30⟩

/-- The last second of the year 9999. -/
def lastOf9999 : DateTime := ⟨9999, 11, 31, 23, 59, 59⟩

/-- The first second of the year 10000. -/
def firstOf10000 : DateTime := ⟨10000, 0, 1, 0, 0, 0⟩

/-- The first second of the year 999. -/
def firstOf999 : DateTime := ⟨999, 0, 1, 0, 0, 0⟩

/-- A store whose copyright is the number 2024. -/
def numberCopyright : RawSettings := ⟨none, none, none, some (.num (lit "2024"))⟩

/-- A store whose project name is `null`. -/
def nullProject : RawSettings := ⟨none, none, some .null, none⟩

/-- A store with a number as author name, `null` as author address and a number
as project name. -/
def oddButHarmless : RawSettings :=
  ⟨some (.num (lit "42")), some .null, some (.num (lit "7")), none⟩

/-! ## Basic facts -/

/-- The tilde line is `width` tildes. -/
theorem tildeLine_eq (w : Nat) : tildeLine w = List.replicate w 126 := by
  simp [tildeLine, replaceSpaces, jsRepeat]

/-- `normLine` returns `width` units. -/
theorem length_normLine (content : JSString) (w : Nat) : (normLine content w).length = w := by
  simp [normLine, padEnd, substring0]

/-- The header is the joined lines and two newlines. -/
theorem getHeaderString_eq (fileName : JSString) (config : Settings) (p : CommentProfile)
    (created : Option JSString) (now : DateTime) :
    getHeaderString fileName config p created now =
      joinLines (headerLines fileName config p created now) ++ [10, 10] := rfl

/-- The header is framed by two separators: it starts with one, and one stands
right before its final two newlines. -/
theorem getHeaderString_frame (fileName : JSString) (config : Settings) (p : CommentProfile)
    (created : Option JSString) (now : DateTime) :
    ∃ X, getHeaderString fileName config p created now =
      separator p ++ 10 :: (X ++ 10 :: (separator p ++ [10, 10])) := by
  refine ⟨joinLines (((headerLines fileName config p created now).drop 1).take 13), ?_⟩
  simp [getHeaderString_eq, headerLines, joinLines, separator]

/-- The header depends on the prior created timestamp only through the
`createTimestamp` it yields. -/
theorem getHeaderString_congr (fileName : JSString) (config : Settings) (p : CommentProfile)
    (a b : Option JSString) (now : DateTime)
    (h : orElseString a (getTimestamp now) = orElseString b (getTimestamp now)) :
    getHeaderString fileName config p a now = getHeaderString fileName config p b now := by
  simp only [getHeaderString, headerLines, h]

/-- A timestamp is never empty. -/
theorem getTimestamp_ne_nil (now : DateTime) : getTimestamp now ≠ [] := by
  intro h
  have := congrArg List.length h
  simp [getTimestamp, lit] at this

/-- `a || b` is not empty when `b` is not. -/
theorem orElseString_ne_nil (a : Option JSString) (b : JSString) (hb : b ≠ []) :
    orElseString a b ≠ [] := by
  unfold orElseString
  split <;> simp_all

/-- `a || b` is `a` for a non-empty `a`. -/
theorem orElseString_some (c b : JSString) (hc : c ≠ []) : orElseString (some c) b = c := by
  cases c with
  | nil => exact absurd rfl hc
  | cons x c => rfl

/-- A profile that `getCommentProfile` returns is one of the table. -/
theorem getCommentProfile_style_mem (languageId : JSString) (p : CommentProfile)
    (hp : getCommentProfile languageId = .style p) : p ∈ tableProfiles := by
  unfold getCommentProfile commentStylesGet at hp
  simp only [tableProfiles, List.mem_cons, List.mem_singleton, List.not_mem_nil, or_false]
  repeat' split at hp
  all_goals first
    | (injection hp with hp; subst hp; simp)
    | (exfalso; simp_all)

/-- The separator is `start`, `width` tildes, `end`. -/
theorem separator_eq (p : CommentProfile) :
    separator p = p.start ++ List.replicate p.width 126 ++ p.end := by
  simp [separator, tildeLine_eq]

/-- The separators of the table are not empty. -/
theorem separator_ne_nil (p : CommentProfile) (hp : p ∈ tableProfiles) : separator p ≠ [] := by
  simp only [tableProfiles, List.mem_cons, List.mem_singleton, List.not_mem_nil, or_false] at hp
  rcases hp with rfl | rfl | rfl | rfl <;> decide

/-! ## Occurrences and whitespace -/

/-- An occurrence inside the middle part of a concatenation is an occurrence
in the middle part alone, and conversely. -/
theorem occursAt_middle (S a b c : JSString) (k : Nat) (hk : k + S.length ≤ b.length) :
    occursAt S (a ++ b ++ c) (a.length + k) ↔ occursAt S b k := by
  have hdrop : (a ++ b ++ c).drop (a.length + k) = b.drop k ++ c := by
    rw [List.append_assoc, ← List.drop_drop, List.drop_left, List.drop_append_of_le_length]
    omega
  simp only [occursAt, hdrop]
  constructor
  · intro h
    exact List.prefix_of_prefix_length_le h (List.prefix_append _ _)
      (by simp only [List.length_drop]; omega)
  · intro h
    exact h.trans (List.prefix_append _ _)

/-- An occurrence that ends within the first part of a concatenation. -/
theorem occursAt_append_right (S b c : JSString) (k : Nat) (hk : k + S.length ≤ b.length) :
    occursAt S (b ++ c) k ↔ occursAt S b k := by
  have := occursAt_middle S [] b c k hk
  simpa using this

/-- `occurrences` lists every offset at which the string stands. -/
theorem mem_occurrences (S s : JSString) (i : Nat) (hi : i < s.length)
    (h : occursAt S s i) : i ∈ occurrences S s := by
  induction s generalizing i with
  | nil => simp at hi
  | cons x s ih =>
    cases i with
    | zero =>
      have h0 : S <+: x :: s := by simpa [occursAt] using h
      simp [occurrences, h0]
    | succ i =>
      have hmem := ih i (by simpa using hi) (by simpa [occursAt] using h)
      unfold occurrences
      split
      · exact List.mem_cons_of_mem _ (List.mem_map.2 ⟨i, hmem, rfl⟩)
      · exact List.mem_map.2 ⟨i, hmem, rfl⟩

/-- When `occurrences` has two entries the string stands at those offsets only. -/
theorem occursAt_of_occurrences (S s : JSString) (a b : Nat) (h : occurrences S s = [a, b])
    (i : Nat) (hi : i < s.length) (hocc : occursAt S s i) : i = a ∨ i = b := by
  have := mem_occurrences S s i hi hocc
  rw [h] at this
  simpa using this

/-- No whitespace is left after the leading run of whitespace. -/
theorem spaceRun_drop_spaceRun (s : JSString) : spaceRun (s.drop (spaceRun s)) = 0 := by
  induction s with
  | nil => rfl
  | cons x s ih =>
    by_cases hx : isSpace x = true
    · simpa [spaceRun, List.takeWhile_cons, hx] using ih
    · simp [spaceRun, List.takeWhile_cons, hx]

/-- Two newlines add two to the run of whitespace. -/
theorem spaceRun_newlines (post : JSString) : spaceRun (10 :: 10 :: post) = spaceRun post + 2 := by
  simp [spaceRun, List.takeWhile_cons, isSpace]

/-! ## The matcher -/

/-- A literal at the head of a pattern matches when the input starts with it, and
the rest of the pattern goes on behind it. -/
theorem matchHere_literal (S : JSString) (r : List Item) (s : JSString) :
    matchHere (literal S ++ r) s =
      if S <+: s then (matchHere r (s.drop S.length)).map (· + S.length) else none := by
  induction S generalizing s with
  | nil => simp [literal]
  | cons c S ih =>
    cases s with
    | nil => simp [literal, matchHere]
    | cons x s =>
      have ih := ih s
      simp only [literal, List.map_cons, List.cons_append] at ih ⊢
      simp only [matchHere, CharClass.test, ih, List.cons_prefix_cons]
      by_cases hx : x = c
      · subst hx
        by_cases hS : S <+: s
        · simp [hS, Option.map_map, Function.comp_def, Nat.add_assoc]
        · simp [hS]
      · simp [hx, Ne.symm hx]

/-- `\s*` at the end of a pattern takes the whole run of whitespace. -/
theorem matchHere_greedySpace (s : JSString) :
    matchHere [.greedyStar .space] s = some (s.takeWhile isSpace).length := by
  induction s with
  | nil => rfl
  | cons x s ih =>
    simp only [matchHere, greedyLoop] at ih ⊢
    by_cases hx : isSpace x = true
    · simp [CharClass.test, hx, ih, List.takeWhile_cons]
    · simp [CharClass.test, hx, List.takeWhile_cons]

/-- `[\s\S]*?` fails when the continuation fails at every offset. -/
theorem lazyLoop_any_eq_none (cont : JSString → Option Nat) (s : JSString) :
    lazyLoop .any cont s = none ↔ ∀ j, j ≤ s.length → cont (s.drop j) = none := by
  induction s with
  | nil =>
    simp only [lazyLoop, List.length_nil, Nat.le_zero, List.drop_nil]
    constructor
    · intro h j _; exact h
    · intro h; exact h 0 rfl
  | cons x s ih =>
    simp only [lazyLoop, CharClass.test, if_true]
    cases h0 : cont (x :: s) with
    | some n0 =>
      simp only [false_iff, reduceCtorEq]
      intro h
      have := h 0 (Nat.zero_le _)
      simp [h0] at this
    | none =>
      simp only [Option.map_eq_none', ih]
      constructor
      · intro h j hj
        cases j with
        | zero => simpa using h0
        | succ j => simpa using h j (by simpa using hj)
      · intro h j hj
        simpa using h (j + 1) (by simpa using hj)

/-- `[\s\S]*?` stops at the first offset where the continuation matches. -/
theorem lazyLoop_any_eq_some (cont : JSString → Option Nat) (s : JSString) (n : Nat) :
    lazyLoop .any cont s = some n ↔
      ∃ j m, j ≤ s.length ∧ cont (s.drop j) = some m ∧ n = m + j ∧
        ∀ j', j' < j → cont (s.drop j') = none := by
  induction s generalizing n with
  | nil =>
    simp only [lazyLoop, List.length_nil, Nat.le_zero, List.drop_nil]
    constructor
    · intro h; exact ⟨0, n, rfl, h, rfl, fun _ hj => absurd hj (Nat.not_lt_zero _)⟩
    · rintro ⟨j, m, rfl, hm, rfl, -⟩; simpa using hm
  | cons x s ih =>
    simp only [lazyLoop, CharClass.test, if_true]
    cases h0 : cont (x :: s) with
    | some n0 =>
      simp only [Option.some.injEq]
      constructor
      · rintro rfl
        exact ⟨0, n0, Nat.zero_le _, by simpa using h0, rfl,
          fun _ hj => absurd hj (Nat.not_lt_zero _)⟩
      · rintro ⟨j, m, -, hm, rfl, hfirst⟩
        cases j with
        | zero => simp [h0] at hm; simp [hm]
        | succ j =>
          have := hfirst 0 (Nat.succ_pos _)
          simp [h0] at this
    | none =>
      simp only [Option.map_eq_some', ih]
      constructor
      · rintro ⟨a, ⟨j, m, hj, hm, rfl, hfirst⟩, rfl⟩
        refine ⟨j + 1, m, by simpa using hj, by simpa using hm, by omega, ?_⟩
        intro j' hj'
        cases j' with
        | zero => simpa using h0
        | succ j' => simpa using hfirst j' (by omega)
      · rintro ⟨j, m, hj, hm, rfl, hfirst⟩
        cases j with
        | zero => simp [h0] at hm
        | succ j =>
          refine ⟨m + j, ⟨j, m, by simpa using hj, by simpa using hm, rfl, ?_⟩, by omega⟩
          intro j' hj'
          simpa using hfirst (j' + 1) (by omega)

/-- No match: the pattern matches at no offset. -/
theorem regexMatch_eq_none (re : List Item) (s : JSString) :
    regexMatch re s = none ↔ ∀ i, i ≤ s.length → matchHere re (s.drop i) = none := by
  induction s with
  | nil =>
    simp only [regexMatch, Option.map_eq_none', List.length_nil, Nat.le_zero, List.drop_nil]
    constructor
    · intro h j _; exact h
    · intro h; exact h 0 rfl
  | cons x s ih =>
    simp only [regexMatch]
    cases h0 : matchHere re (x :: s) with
    | some n0 =>
      simp only [false_iff, reduceCtorEq]
      intro h
      have := h 0 (Nat.zero_le _)
      simp [h0] at this
    | none =>
      simp only [Option.map_eq_none', ih]
      constructor
      · intro h j hj
        cases j with
        | zero => simpa using h0
        | succ j => simpa using h j (by simpa using hj)
      · intro h j hj
        simpa using h (j + 1) (by simpa using hj)

/-- The match is at the first offset where the pattern matches. -/
theorem regexMatch_eq_some (re : List Item) (s : JSString) (i n : Nat) :
    regexMatch re s = some (i, n) ↔
      i ≤ s.length ∧ matchHere re (s.drop i) = some n ∧
        ∀ i', i' < i → matchHere re (s.drop i') = none := by
  induction s generalizing i with
  | nil =>
    simp only [regexMatch, Option.map_eq_some', Prod.mk.injEq, List.length_nil, Nat.le_zero,
      List.drop_nil]
    constructor
    · rintro ⟨a, ha, rfl, rfl⟩
      exact ⟨rfl, ha, fun _ hj => absurd hj (Nat.not_lt_zero _)⟩
    · rintro ⟨rfl, hm, -⟩
      exact ⟨n, hm, rfl, rfl⟩
  | cons x s ih =>
    simp only [regexMatch]
    cases h0 : matchHere re (x :: s) with
    | some n0 =>
      simp only [Option.some.injEq, Prod.mk.injEq]
      constructor
      · rintro ⟨rfl, rfl⟩
        exact ⟨Nat.zero_le _, by simpa using h0, fun _ hj => absurd hj (Nat.not_lt_zero _)⟩
      · rintro ⟨-, hm, hfirst⟩
        cases i with
        | zero => simp [h0] at hm; simp [hm]
        | succ j =>
          have := hfirst 0 (Nat.succ_pos _)
          simp [h0] at this
    | none =>
      simp only [Option.map_eq_some', Prod.mk.injEq, Prod.exists]
      constructor
      · rintro ⟨a, b, hab, rfl, rfl⟩
        obtain ⟨hj, hm, hfirst⟩ := (ih a).1 hab
        refine ⟨by simpa using hj, by simpa using hm, ?_⟩
        intro j' hj'
        cases j' with
        | zero => simpa using h0
        | succ j' => simpa using hfirst j' (by omega)
      · rintro ⟨hj, hm, hfirst⟩
        cases i with
        | zero => simp [h0] at hm
        | succ j =>
          refine ⟨j, n, (ih j).2 ⟨by simpa using hj, by simpa using hm, ?_⟩, rfl, rfl⟩
          intro j' hj'
          simpa using hfirst (j' + 1) (by omega)

/-! ## The header pattern -/

/-- The literal of a concatenation. -/
theorem literal_append (a b : JSString) : literal (a ++ b) = literal a ++ literal b := by
  simp [literal]

/-- The header pattern in terms of the separator. -/
theorem headerRegex_eq (p : CommentProfile) :
    headerRegex p =
      literal (separator p) ++ (.lazyStar .any :: (literal (separator p) ++ [.greedyStar .space])) := by
  simp [headerRegex, separator, literal_append, List.append_assoc]

/-- The tail of the header pattern: a separator and the whitespace after it. -/
theorem matchHere_separator_space (S u : JSString) :
    matchHere (literal S ++ [.greedyStar .space]) u =
      if S <+: u then some (spaceRun (u.drop S.length) + S.length) else none := by
  rw [matchHere_literal, matchHere_greedySpace]
  simp [spaceRun]

/-- The header pattern at the start of a text, as a lazy scan for the second
separator. -/
theorem matchHere_headerRegex (p : CommentProfile) (t : JSString) :
    matchHere (headerRegex p) t =
      if separator p <+: t then
        (lazyLoop .any (fun u => if separator p <+: u then
            some (spaceRun (u.drop (separator p).length) + (separator p).length) else none)
          (t.drop (separator p).length)).map (· + (separator p).length)
      else none := by
  rw [headerRegex_eq, matchHere_literal]
  have : matchHere (.lazyStar .any :: (literal (separator p) ++ [.greedyStar .space])) =
      lazyLoop .any (fun u => if separator p <+: u then
            some (spaceRun (u.drop (separator p).length) + (separator p).length) else none) := by
    have hf : matchHere (literal (separator p) ++ [.greedyStar .space]) = fun u =>
        if separator p <+: u then
          some (spaceRun (u.drop (separator p).length) + (separator p).length) else none :=
      funext (matchHere_separator_space _)
    simp only [matchHere, hf]
  rw [this]

/-- What a match of the header pattern at the start of `t` is: the separator
stands at offset 0, `j` is the first offset past it where the separator stands
again, and the match runs through the whitespace after that second
separator. -/
theorem matchHere_headerRegex_eq_some (p : CommentProfile) (t : JSString) (n : Nat) :
    matchHere (headerRegex p) t = some n ↔
      separator p <+: t ∧ ∃ j, (separator p).length ≤ j ∧ j ≤ t.length ∧
        occursAt (separator p) t j ∧
        (∀ j', (separator p).length ≤ j' → j' < j → ¬ occursAt (separator p) t j') ∧
        n = j + (separator p).length + spaceRun (t.drop (j + (separator p).length)) := by
  rw [matchHere_headerRegex]
  by_cases hS : separator p <+: t
  · have hlen : (separator p).length ≤ t.length := hS.length_le
    simp only [hS, if_true, true_and, Option.map_eq_some', lazyLoop_any_eq_some, occursAt]
    constructor
    · rintro ⟨a, ⟨j, m, hj, hm, rfl, hfirst⟩, rfl⟩
      simp only [List.drop_drop, List.length_drop] at hm hj hfirst
      refine ⟨(separator p).length + j, by omega, by omega, ?_, ?_, ?_⟩
      · by_contra hc
        simp [hc] at hm
      · intro j' h1 h2 hc
        have := hfirst (j' - (separator p).length) (by omega)
        rw [show (separator p).length + (j' - (separator p).length) = j' by omega] at this
        simp [hc] at this
      · split at hm
        · simp only [Option.some.injEq] at hm
          omega
        · simp at hm
    · rintro ⟨j, h1, h2, hocc, hfirst, rfl⟩
      refine ⟨_, ⟨j - (separator p).length,
        spaceRun (t.drop (j + (separator p).length)) + (separator p).length, ?_, ?_, rfl, ?_⟩, ?_⟩
      · simp only [List.length_drop]; omega
      · simp only [List.drop_drop]
        rw [show (separator p).length + (j - (separator p).length) = j by omega]
        simp [hocc]
      · intro j' hj'
        simp only [List.drop_drop]
        have := hfirst ((separator p).length + j') (by omega) (by omega)
        simp [this]
      · omega
  · simp [hS]

/-- The header pattern does not match at the start of `t`: no separator there,
or none standing past it. -/
theorem matchHere_headerRegex_eq_none (p : CommentProfile) (t : JSString) :
    matchHere (headerRegex p) t = none ↔
      ¬ separator p <+: t ∨
        ∀ j, (separator p).length ≤ j → j ≤ t.length → ¬ occursAt (separator p) t j := by
  rw [matchHere_headerRegex]
  by_cases hS : separator p <+: t
  · have hlen : (separator p).length ≤ t.length := hS.length_le
    simp only [hS, if_true, not_true_eq_false, false_or, Option.map_eq_none',
      lazyLoop_any_eq_none, occursAt, List.length_drop, List.drop_drop]
    constructor
    · intro h j h1 h2 hc
      have := h (j - (separator p).length) (by omega)
      rw [show (separator p).length + (j - (separator p).length) = j by omega] at this
      simp [hc] at this
    · intro h j hj
      have := h ((separator p).length + j) (by omega) (by omega)
      simp [this]
  · simp [hS]

/-- The match of the header pattern in a document: it starts at the first
offset where the separator stands, `j` is the first offset past that separator
where the separator stands again, and the match runs through the whitespace
after the second separator. -/
theorem regexMatch_headerRegex_eq_some (p : CommentProfile) (text : JSString) (idx len : Nat) :
    regexMatch (headerRegex p) text = some (idx, len) ↔
      occursAt (separator p) text idx ∧
      (∀ i, i < idx → ¬ occursAt (separator p) text i) ∧
      ∃ j, idx + (separator p).length ≤ j ∧ j ≤ text.length ∧
        occursAt (separator p) text j ∧
        (∀ j', idx + (separator p).length ≤ j' → j' < j → ¬ occursAt (separator p) text j') ∧
        idx + len = j + (separator p).length + spaceRun (text.drop (j + (separator p).length)) := by
  rw [regexMatch_eq_some]
  constructor
  · rintro ⟨hidx, hm, hfirst⟩
    obtain ⟨hS, j, h1, h2, hocc, hnext, rfl⟩ := (matchHere_headerRegex_eq_some p _ _).1 hm
    simp only [occursAt, List.drop_drop, List.length_drop] at hocc hnext h2 ⊢
    refine ⟨hS, ?_, idx + j, by omega, by omega, hocc, ?_, ?_⟩
    · intro i hi hc
      rcases (matchHere_headerRegex_eq_none p _).1 (hfirst i hi) with h | h
      · exact h hc
      · refine h (idx + j - i) (by omega) (by simp only [List.length_drop]; omega) ?_
        simp only [occursAt, List.drop_drop]
        rw [show i + (idx + j - i) = idx + j by omega]
        exact hocc
    · intro j' h3 h4 hc
      refine hnext (j' - idx) (by omega) (by omega) ?_
      rw [show idx + (j' - idx) = j' by omega]
      exact hc
    · rw [show idx + (j + (separator p).length) = idx + j + (separator p).length by omega]
      omega
  · rintro ⟨hS, hfirst, j, h1, h2, hocc, hnext, hlen⟩
    refine ⟨by omega, ?_, ?_⟩
    · rw [matchHere_headerRegex_eq_some]
      refine ⟨hS, j - idx, by omega, by simp only [List.length_drop]; omega, ?_, ?_, ?_⟩
      · simp only [occursAt, List.drop_drop]
        rw [show idx + (j - idx) = j by omega]
        exact hocc
      · intro j' h3 h4 hc
        refine hnext (idx + j') (by omega) (by omega) ?_
        simpa only [occursAt, List.drop_drop] using hc
      · simp only [List.drop_drop]
        rw [show idx + (j - idx + (separator p).length) = j + (separator p).length by omega]
        omega
    · intro i hi
      rw [matchHere_headerRegex_eq_none]
      exact Or.inl (hfirst i hi)

/-- No match of the header pattern: no separator stands past the end of another. -/
theorem regexMatch_headerRegex_eq_none (p : CommentProfile) (text : JSString) :
    regexMatch (headerRegex p) text = none ↔
      ∀ i j, i + (separator p).length ≤ j → j ≤ text.length →
        occursAt (separator p) text i → ¬ occursAt (separator p) text j := by
  rw [regexMatch_eq_none]
  constructor
  · intro h i j h1 h2 hi hj
    rcases (matchHere_headerRegex_eq_none p _).1 (h i (by omega)) with h' | h'
    · exact h' hi
    · refine h' (j - i) (by omega) (by simp only [List.length_drop]; omega) ?_
      simp only [occursAt, List.drop_drop]
      rw [show i + (j - i) = j by omega]
      exact hj
  · intro h i hi
    rw [matchHere_headerRegex_eq_none]
    by_cases hS : separator p <+: List.drop i text
    · right
      intro j h1 h2 hc
      simp only [List.length_drop] at h2
      refine h i (i + j) (by omega) (by omega) hS ?_
      simpa only [occursAt, List.drop_drop] using hc
    · exact Or.inl hS

/-- A block framed by two separators, with no separator standing in between,
is what the header pattern matches when the block stands in a document after a
text that the separator does not start in. -/
theorem regexMatch_framed (p : CommentProfile) (pre X post : JSString)
    (hne : separator p ≠ [])
    (honly : ∀ i, i < (separator p ++ 10 :: (X ++ 10 :: (separator p ++ [10, 10]))).length →
      occursAt (separator p) (separator p ++ 10 :: (X ++ 10 :: (separator p ++ [10, 10]))) i →
      i = 0 ∨ i + (separator p).length + 2 =
        (separator p ++ 10 :: (X ++ 10 :: (separator p ++ [10, 10]))).length)
    (hpre : ∀ i, i < pre.length →
      ¬ occursAt (separator p)
        (pre ++ (separator p ++ 10 :: (X ++ 10 :: (separator p ++ [10, 10]))) ++ post) i)
    :
    regexMatch (headerRegex p)
        (pre ++ (separator p ++ 10 :: (X ++ 10 :: (separator p ++ [10, 10]))) ++ post) =
      some (pre.length,
        (separator p ++ 10 :: (X ++ 10 :: (separator p ++ [10, 10]))).length + spaceRun post) := by
  have hpos : 0 < (separator p).length := List.length_pos.2 hne
  generalize hS : separator p = S at *
  generalize hH : S ++ 10 :: (X ++ 10 :: (S ++ [10, 10])) = H at *
  have hHlen : H.length = S.length + 1 + X.length + 1 + S.length + 2 := by
    rw [← hH]; simp; omega
  rw [regexMatch_headerRegex_eq_some, hS]
  refine ⟨?_, hpre, pre.length + (S.length + 1 + X.length + 1), by omega, ?_, ?_, ?_, ?_⟩
  · have := (occursAt_middle S pre H post 0 (by omega)).2
      (by rw [occursAt, ← hH]; simp)
    simpa using this
  · simp only [List.length_append]; omega
  · refine (occursAt_middle S pre H post _ (by omega)).2 ?_
    rw [occursAt, ← hH]
    have : (S ++ 10 :: (X ++ 10 :: (S ++ [10, 10]))).drop (S.length + 1 + X.length + 1) =
        S ++ [10, 10] := by
      rw [show S ++ 10 :: (X ++ 10 :: (S ++ [10, 10])) =
        (S ++ [10] ++ X ++ [10]) ++ (S ++ [10, 10]) by simp]
      rw [List.drop_left']
      simp; omega
    rw [this]
    exact List.prefix_append _ _
  · intro j' h1 h2 hc
    have hj' : j' = pre.length + (j' - pre.length) := by omega
    rw [hj'] at hc
    have hc' := (occursAt_middle S pre H post (j' - pre.length) (by omega)).1 hc
    rcases honly (j' - pre.length) (by omega) hc' with h | h
    · omega
    · omega
  · have hdrop : (pre ++ H ++ post).drop (pre.length + (S.length + 1 + X.length + 1) + S.length) =
        10 :: 10 :: post := by
      rw [← hH]
      rw [show pre ++ (S ++ 10 :: (X ++ 10 :: (S ++ [10, 10]))) ++ post =
        (pre ++ S ++ [10] ++ X ++ [10] ++ S) ++ (10 :: 10 :: post) by simp]
      rw [List.drop_left']
      simp; omega
    rw [hdrop, spaceRun_newlines]
    omega

/-- The match of the header pattern in a document made of a text the separator
does not start in, a rendered header in which the separator stands only at the
two ends, and a rest. -/
theorem regexMatch_around_header (p : CommentProfile) (pre post fileName : JSString)
    (config : Settings) (now : DateTime) (created : Option JSString)
    (hne : separator p ≠ [])
    (honly : ∀ i, i < (getHeaderString fileName config p created now).length →
      occursAt (separator p) (getHeaderString fileName config p created now) i →
      i = 0 ∨ i + (separator p).length + 2 =
        (getHeaderString fileName config p created now).length)
    (hpre : ∀ i, i < pre.length →
      ¬ occursAt (separator p) (pre ++ getHeaderString fileName config p created now ++ post) i) :
    regexMatch (headerRegex p) (pre ++ getHeaderString fileName config p created now ++ post) =
      some (pre.length, (getHeaderString fileName config p created now).length + spaceRun post) := by
  obtain ⟨X, hX⟩ := getHeaderString_frame fileName config p created now
  have hm := regexMatch_framed p pre X post hne (hX ▸ honly) (hX ▸ hpre)
  rw [← hX] at hm
  exact hm

/-! ## The created pattern -/

/-- A run of single atoms matches when the input is long enough and each unit
passes its atom. -/
theorem matchHere_ones (ks : List CharClass) (s : JSString) :
    matchHere (ks.map .one) s =
      if (List.zipWith CharClass.test ks s).all id ∧ ks.length ≤ s.length
      then some ks.length else none := by
  induction ks generalizing s with
  | nil => simp [matchHere]
  | cons k ks ih =>
    cases s with
    | nil => simp [matchHere]
    | cons x s =>
      simp only [List.map_cons, matchHere, ih, List.zipWith_cons_cons, List.all_cons,
        List.length_cons, Nat.add_le_add_iff_right, id]
      by_cases hx : k.test x = true
      · simp only [hx, if_true, Bool.true_and]
        split <;> simp
      · simp [hx]

/-- The nineteen atoms of the capture group. -/
theorem createdRegex_eq : createdRegex = literal (lit "Created: ") ++
    ([.digit, .digit, .digit, .digit, .unit 47, .digit, .digit, .unit 47, .digit, .digit,
      .unit 32, .digit, .digit, .unit 58, .digit, .digit, .unit 58, .digit, .digit] :
      List CharClass).map .one := rfl

/-- The capture group matches the inputs whose first 19 units have the timestamp
form. -/
theorem matchHere_timestamp (u : JSString) :
    matchHere (([.digit, .digit, .digit, .digit, .unit 47, .digit, .digit, .unit 47, .digit,
      .digit, .unit 32, .digit, .digit, .unit 58, .digit, .digit, .unit 58, .digit, .digit] :
      List CharClass).map .one) u =
      if hasTimestampForm (u.take 19) then some 19 else none := by
  rw [matchHere_ones]
  rcases u with _ | ⟨a1, _ | ⟨a2, _ | ⟨a3, _ | ⟨a4, _ | ⟨a5, _ | ⟨a6, _ | ⟨a7, _ | ⟨a8, _ |
    ⟨a9, _ | ⟨a10, _ | ⟨a11, _ | ⟨a12, _ | ⟨a13, _ | ⟨a14, _ | ⟨a15, _ | ⟨a16, _ | ⟨a17, _ |
    ⟨a18, _ | ⟨a19, u⟩⟩⟩⟩⟩⟩⟩⟩⟩⟩⟩⟩⟩⟩⟩⟩⟩⟩⟩
  all_goals first
    | (simp [hasTimestampForm]; done)
    | (simp only [List.take_succ_cons, List.take_zero, hasTimestampForm, List.zipWith_cons_cons,
        List.zipWith_nil_left, List.all_cons, List.all_nil, CharClass.test, id, List.length_cons,
        List.length_nil, Bool.and_true, Bool.and_eq_true, decide_eq_true_eq]
       congr 1
       simp only [eq_iff_iff]
       constructor
       · rintro ⟨⟨h1, h2, h3, h4, h5, h6, h7, h8, h9, h10, h11, h12, h13, h14, h15, h16, h17,
           h18, h19⟩, -⟩
         simp [*]
       · intro h
         simp only [and_assoc] at h
         exact ⟨h, by omega⟩)

/-- The created pattern at the start of a text. -/
theorem matchHere_createdRegex (t : JSString) :
    matchHere createdRegex t =
      if lit "Created: " <+: t ∧ hasTimestampForm ((t.drop 9).take 19) = true
      then some 28 else none := by
  rw [createdRegex_eq, matchHere_literal, matchHere_timestamp]
  have h9 : (lit "Created: ").length = 9 := by decide
  rw [h9]
  by_cases h1 : lit "Created: " <+: t
  · by_cases h2 : hasTimestampForm ((t.drop 9).take 19) = true
    · simp [h1, h2]
    · simp [h1, h2]
  · simp [h1]

/-- No created timestamp is found when no `Created: ` is followed by the form. -/
theorem createdMatch_eq_none (old : JSString) :
    createdMatch old = none ↔
      ∀ i, i < old.length → occursAt (lit "Created: ") old i →
        hasTimestampForm ((old.drop (i + 9)).take 19) = false := by
  have hnone : createdMatch old = none ↔ regexMatch createdRegex old = none := by
    unfold createdMatch
    cases h : regexMatch createdRegex old with
    | none => simp
    | some r => simp
  rw [hnone, regexMatch_eq_none]
  constructor
  · intro h i hi hocc
    have := h i (by omega)
    rw [matchHere_createdRegex] at this
    simp only [List.drop_drop, ite_eq_right_iff, reduceCtorEq, imp_false, not_and,
      Bool.not_eq_true] at this
    rw [show i + 9 = i + 9 from rfl]
    exact this hocc
  · intro h i hi
    rw [matchHere_createdRegex]
    simp only [List.drop_drop, ite_eq_right_iff, reduceCtorEq, imp_false, not_and,
      Bool.not_eq_true]
    intro hocc
    have hlt : i < old.length := by
      have := hocc.length_le
      simp only [List.length_drop] at this
      have h9 : (lit "Created: ").length = 9 := by decide
      omega
    exact h i hlt hocc

/-- The created pattern reads 28 units at most. -/
theorem matchHere_createdRegex_append (a w : JSString) (ha : 28 ≤ a.length) :
    matchHere createdRegex (a ++ w) = matchHere createdRegex a := by
  have h9 : (lit "Created: ").length = 9 := by decide
  rw [matchHere_createdRegex, matchHere_createdRegex,
    List.drop_append_of_le_length (by omega : 9 ≤ a.length),
    List.take_append_of_le_length (by simp only [List.length_drop]; omega)]
  have hiff : lit "Created: " <+: a ++ w ↔ lit "Created: " <+: a :=
    ⟨fun h => List.prefix_of_prefix_length_le h (List.prefix_append _ _) (by omega),
      fun h => h.trans (List.prefix_append _ _)⟩
  simp only [hiff]

/-- A string of the timestamp form has 19 units. -/
theorem hasTimestampForm_length (s : JSString) (h : hasTimestampForm s = true) :
    s.length = 19 := by
  unfold hasTimestampForm at h
  split at h
  · rfl
  · simp at h

/-- Text appended to a block does not change the first created timestamp found
in the block. -/
theorem createdMatch_append (H w c : JSString) (h : createdMatch H = some c) :
    createdMatch (H ++ w) = some c := by
  unfold createdMatch at h
  cases hr : regexMatch createdRegex H with
  | none => simp [hr] at h
  | some r =>
    obtain ⟨i, n⟩ := r
    simp only [hr, Option.some.injEq] at h
    obtain ⟨hi, hm, hfirst⟩ := (regexMatch_eq_some _ _ _ _).1 hr
    have hm' := hm
    rw [matchHere_createdRegex] at hm'
    split at hm'
    · rename_i hcond
      have hlen19 := hasTimestampForm_length _ hcond.2
      simp only [List.length_take, List.length_drop] at hlen19
      have hiH : i + 28 ≤ H.length := by omega
      have hr' : regexMatch createdRegex (H ++ w) = some (i, n) := by
        rw [regexMatch_eq_some]
        refine ⟨by simp only [List.length_append]; omega, ?_, ?_⟩
        · rw [List.drop_append_of_le_length hi, matchHere_createdRegex_append _ _
            (by simp only [List.length_drop]; omega)]
          exact hm
        · intro i' hi'
          rw [List.drop_append_of_le_length (by omega), matchHere_createdRegex_append _ _
            (by simp only [List.length_drop]; omega)]
          exact hfirst i' hi'
      unfold createdMatch
      simp only [hr', Option.some.injEq]
      rw [List.drop_append_of_le_length (by omega),
        List.take_append_of_le_length (by simp only [List.length_drop]; omega)]
      exact h
    · simp at hm'

/-! ## The text after the command -/

/-- The text after the command is a text the separator does not start in, the
new header, and a rest; the rest has no leading whitespace when the command
replaced a match, and is the whole document when it found none. -/
theorem applyHeader_decomp (p : CommentProfile) (fileContent fileName : JSString)
    (config : Settings) (now : DateTime) :
    ∃ pre post,
      applyHeader p fileContent fileName config now =
        pre ++ newHeader p fileContent fileName config now ++ post ∧
      (∀ i, i < pre.length →
        ¬ occursAt (separator p) (pre ++ newHeader p fileContent fileName config now ++ post) i) ∧
      (regexMatch (headerRegex p) fileContent = none → pre = [] ∧ post = fileContent) ∧
      (regexMatch (headerRegex p) fileContent ≠ none → spaceRun post = 0) := by
  cases hm : regexMatch (headerRegex p) fileContent with
  | none =>
    refine ⟨[], fileContent, by simp [applyHeader, hm], ?_, fun _ => ⟨rfl, rfl⟩,
      fun h => absurd rfl h⟩
    intro i hi
    exact absurd hi (Nat.not_lt_zero _)
  | some r =>
    obtain ⟨idx, len⟩ := r
    obtain ⟨hocc, hfirst, j, hj1, hj2, -, -, hlen⟩ :=
      (regexMatch_headerRegex_eq_some p _ _ _).1 hm
    have hidx : idx ≤ fileContent.length := by omega
    refine ⟨fileContent.take idx, fileContent.drop (idx + len), by simp [applyHeader, hm], ?_,
      fun h => by simp at h, fun _ => ?_⟩
    · intro i hi hc
      have htake : (fileContent.take idx).length = idx := by simp; omega
      rw [htake] at hi
      obtain ⟨X, hX⟩ := getHeaderString_frame fileName config p
        (priorCreated fileContent (regexMatch (headerRegex p) fileContent)) now
      obtain ⟨r0, hr0⟩ := hocc
      have hlenS : i + (separator p).length ≤ (fileContent.take idx ++ separator p).length := by
        simp only [List.length_append, htake]; omega
      rw [newHeader, hX] at hc
      rw [show fileContent.take idx ++ (separator p ++ 10 :: (X ++ 10 :: (separator p ++ [10, 10])))
          ++ fileContent.drop (idx + len) =
        (fileContent.take idx ++ separator p) ++
          (10 :: (X ++ 10 :: (separator p ++ [10, 10])) ++ fileContent.drop (idx + len)) by simp,
        occursAt_append_right _ _ _ _ hlenS] at hc
      refine hfirst i hi ?_
      have htext : fileContent = (fileContent.take idx ++ separator p) ++ r0 := by
        rw [List.append_assoc, hr0, List.take_append_drop]
      have key := (occursAt_append_right _ _ r0 _ hlenS).2 hc
      rw [← htext] at key
      exact key
    · rw [show idx + len = (j + (separator p).length) +
        spaceRun (fileContent.drop (j + (separator p).length)) by omega, ← List.drop_drop]
      exact spaceRun_drop_spaceRun _

/-- A document made of a text the separator does not start in, a rendered
header that the patterns read back, and a text without leading whitespace is
left as it is by the command. -/
theorem applyHeader_fixed (p : CommentProfile) (pre post fileName : JSString)
    (config : Settings) (now : DateTime) (created : Option JSString)
    (hne : separator p ≠ [])
    (honly : ∀ i, i < (getHeaderString fileName config p created now).length →
      occursAt (separator p) (getHeaderString fileName config p created now) i →
      i = 0 ∨ i + (separator p).length + 2 =
        (getHeaderString fileName config p created now).length)
    (hcreated : createdMatch (getHeaderString fileName config p created now) =
      some (orElseString created (getTimestamp now)))
    (hpre : ∀ i, i < pre.length →
      ¬ occursAt (separator p) (pre ++ getHeaderString fileName config p created now ++ post) i)
    (hpost : spaceRun post = 0) :
    applyHeader p (pre ++ getHeaderString fileName config p created now ++ post)
      fileName config now =
      pre ++ getHeaderString fileName config p created now ++ post := by
  obtain ⟨X, hX⟩ := getHeaderString_frame fileName config p created now
  have hm := regexMatch_framed p pre X post hne (hX ▸ honly) (hX ▸ hpre)
  rw [← hX, hpost, Nat.add_zero] at hm
  generalize hH : getHeaderString fileName config p created now = H at *
  have hold : ((pre ++ H ++ post).drop pre.length).take H.length = H := by
    rw [List.append_assoc, List.drop_left, List.take_left]
  have hc : orElseString created (getTimestamp now) ≠ [] :=
    orElseString_ne_nil _ _ (getTimestamp_ne_nil now)
  have hprior : priorCreated (pre ++ H ++ post) (some (pre.length, H.length)) =
      some (orElseString created (getTimestamp now)) := by
    simp only [priorCreated, hold, hcreated, hc, if_false]
  have hnew : newHeader p (pre ++ H ++ post) fileName config now = H := by
    rw [newHeader, hm, hprior, ← hH]
    apply getHeaderString_congr
    rw [orElseString_some _ _ hc]
  simp only [applyHeader, hm, hnew]
  rw [List.append_assoc pre H post, List.take_left, ← List.append_assoc,
    List.drop_left']
  simp

/-! ## C1 and C2: insertion and replacement -/

/-- C1: when the detection pattern of the document's language finds no match,
the text after the command is the newly rendered header followed by the whole
original text. -/
theorem addHeader_inserts_at_top (fileContent languageId fileName : JSString)
    (config : Settings) (now : DateTime) (p : CommentProfile)
    (hp : getCommentProfile languageId = .style p)
    (hno : regexMatch (headerRegex p) fileContent = none) :
    addHeader fileContent languageId fileName config now =
      some (getHeaderString fileName config p none now ++ fileContent) := by
  simp [addHeader, hp, applyHeader, newHeader, hno, priorCreated]

/-- C1 on an indented Lua line: no match, and the header is put before it. -/
theorem addHeader_inserts_at_top_witness :
    getCommentProfile (lit "lua") = .style luaProfile ∧
    regexMatch (headerRegex luaProfile) (lit "  print(1)\n") = none ∧
    addHeader (lit "  print(1)\n") (lit "lua") (lit "a.lua") ⟨none, none, none, none⟩
        ⟨2024, 0, 5, 3, 4, 5⟩ =
      some (getHeaderString (lit "a.lua") ⟨none, none, none, none⟩ luaProfile none
        ⟨2024, 0, 5, 3, 4, 5⟩ ++ lit "  print(1)\n") :=
  ⟨by decide, by decide!,
    addHeader_inserts_at_top _ _ _ _ _ _ (by decide) (by decide!)⟩

/-- C2: when the detection pattern matches, the text after the command is the
text before the match, the new header, the text after the match; the match
starts at the first occurrence of the separator `start`, `width` tildes, `end`,
runs to the end of the next occurrence of the separator past it, and on through
the whitespace that follows. -/
theorem addHeader_replaces_span (fileContent languageId fileName : JSString)
    (config : Settings) (now : DateTime) (p : CommentProfile) (idx len : Nat)
    (hp : getCommentProfile languageId = .style p)
    (hm : regexMatch (headerRegex p) fileContent = some (idx, len)) :
    let S := p.start ++ List.replicate p.width 126 ++ p.end
    p ∈ tableProfiles ∧
    occursAt S fileContent idx ∧
    (∀ i, i < idx → ¬ occursAt S fileContent i) ∧
    (∃ j, idx + S.length ≤ j ∧ occursAt S fileContent j ∧
      (∀ j', idx + S.length ≤ j' → j' < j → ¬ occursAt S fileContent j') ∧
      idx + len = j + S.length + spaceRun (fileContent.drop (j + S.length))) ∧
    addHeader fileContent languageId fileName config now =
      some (fileContent.take idx ++
        getHeaderString fileName config p (priorCreated fileContent (some (idx, len))) now ++
        fileContent.drop (idx + len)) := by
  intro S
  have hS : S = separator p := (separator_eq p).symm
  obtain ⟨h1, h2, j, h3, -, h4, h5, h6⟩ := (regexMatch_headerRegex_eq_some p _ _ _).1 hm
  refine ⟨getCommentProfile_style_mem _ _ hp, hS ▸ h1, hS ▸ h2, ⟨j, ?_, ?_, ?_, ?_⟩, ?_⟩
  · rw [hS]; exact h3
  · rw [hS]; exact h4
  · rw [hS]; exact h5
  · rw [hS]; exact h6
  · simp [addHeader, hp, applyHeader, newHeader, hm]

set_option maxRecDepth 100000 in
/-- C2 on `pyDoc`: the match is the block with the blank lines after it, from
offset 18 over 174 units, and the shebang line and the code stay. -/
theorem addHeader_replaces_span_witness :
    getCommentProfile (lit "python") = .style pythonProfile ∧
    regexMatch (headerRegex pythonProfile) pyDoc = some (18, 174) ∧
    addHeader pyDoc (lit "python") (lit "a.py") noSettings clockA =
      some (lit "#!/usr/bin/python\n" ++
        getHeaderString (lit "a.py") noSettings pythonProfile none clockA ++ lit "x = 1\n") :=
  ⟨by decide, by decide!,
    ((addHeader_replaces_span pyDoc (lit "python") (lit "a.py") noSettings clockA
      pythonProfile 18 174 (by decide) (by decide!)).2.2.2.2).trans (by decide!)⟩

/-! ## C3 and C4: running the command twice -/

set_option maxRecDepth 1000000 in
/-- C3, as stated, fails: with an author name of the shape
`Created: 1999/01/01 00:00:00` the first run (on a file without a header) shows
the created timestamp of its clock reading, and the second run shows the
timestamp it finds in the author line instead. -/
theorem created_not_kept_with_createdLikeAuthor :
    createdShown codeDoc (lit "lua") clockA = some (lit "2024/01/05 03:04:05") ∧
    (addHeader codeDoc (lit "lua") (lit "a.lua") createdLikeAuthor clockA).bind
      (fun text1 => createdShown text1 (lit "lua") clockB) =
      some (lit "1999/01/01 00:00:00") ∧
    (addHeader codeDoc (lit "lua") (lit "a.lua") createdLikeAuthor clockA).bind
      (fun text1 => createdShown text1 (lit "lua") clockB) ≠
      createdShown codeDoc (lit "lua") clockA := by
  decide!

/-- C3, amended: the created timestamp shown after a second run at any clock
reading is the one shown after the first run, provided that in the header the
first run writes the separator stands only as the first and the last line and
that the first `Created: ` timestamp in that header is the one of its Created
line. -/
theorem created_kept (fileContent languageId fileName : JSString) (config : Settings)
    (t1 t2 : DateTime) (p : CommentProfile)
    (hp : getCommentProfile languageId = .style p)
    (honly : ∀ i, i < (newHeader p fileContent fileName config t1).length →
      occursAt (separator p) (newHeader p fileContent fileName config t1) i →
      i = 0 ∨ i + (separator p).length + 2 =
        (newHeader p fileContent fileName config t1).length)
    (hcreated : createdMatch (newHeader p fileContent fileName config t1) =
      createdShown fileContent languageId t1) :
    (addHeader fileContent languageId fileName config t1).bind
      (fun text1 => createdShown text1 languageId t2) =
      createdShown fileContent languageId t1 := by
  have hne : separator p ≠ [] := separator_ne_nil p (getCommentProfile_style_mem _ _ hp)
  obtain ⟨pre, post, hdec, hpre, -, -⟩ := applyHeader_decomp p fileContent fileName config t1
  have hshown : createdShown fileContent languageId t1 =
      some (orElseString (priorCreated fileContent (regexMatch (headerRegex p) fileContent))
        (getTimestamp t1)) := by
    simp only [createdShown, hp]
  rw [hshown] at hcreated ⊢
  simp only [addHeader, hp, Option.some_bind, createdShown, hdec, Option.some.injEq]
  unfold newHeader at honly hcreated hpre ⊢
  generalize priorCreated fileContent (regexMatch (headerRegex p) fileContent) = c0 at *
  have hc : orElseString c0 (getTimestamp t1) ≠ [] :=
    orElseString_ne_nil _ _ (getTimestamp_ne_nil t1)
  rw [regexMatch_around_header p pre post fileName config t1 _ hne honly hpre]
  have hold : ((pre ++ getHeaderString fileName config p c0 t1 ++ post).drop pre.length).take
      ((getHeaderString fileName config p c0 t1).length + spaceRun post) =
      getHeaderString fileName config p c0 t1 ++ post.take (spaceRun post) := by
    rw [List.append_assoc, List.drop_left, List.take_append]
  simp only [priorCreated, hold, createdMatch_append _ _ _ hcreated, hc, if_false]
  exact orElseString_some _ _ hc

set_option maxRecDepth 1000000 in
/-- C3 on a Lua file that starts with a blank line, with default settings: the
header of the first run has the separator at its two ends only and its first
created timestamp is its own, and the second run shows it again. -/
theorem created_kept_witness :
    getCommentProfile (lit "lua") = .style luaProfile ∧
    occurrences (separator luaProfile)
      (newHeader luaProfile blankFirstDoc (lit "a.lua") noSettings clockA) = [0, 1134] ∧
    createdMatch (newHeader luaProfile blankFirstDoc (lit "a.lua") noSettings clockA) =
      createdShown blankFirstDoc (lit "lua") clockA ∧
    (addHeader blankFirstDoc (lit "lua") (lit "a.lua") noSettings clockA).bind
      (fun text1 => createdShown text1 (lit "lua") clockB) =
      some (lit "2024/01/05 03:04:05") :=
  ⟨by decide, by decide!, by decide!,
    (created_kept blankFirstDoc (lit "lua") (lit "a.lua") noSettings clockA clockB luaProfile
      (by decide)
      (fun i hi hocc =>
        (occursAt_of_occurrences _ _ 0 1134 (by decide!) i hi hocc).imp id
          (fun h => by rw [h]; decide!))
      (by decide!)).trans (by decide!)⟩

set_option maxRecDepth 1000000 in
/-- C4, as stated, fails: on a Lua file that starts with a blank line the first
run puts the header before the blank line and the second run, whose match
takes in the whitespace after the header, removes the blank line. -/
theorem addHeader_twice_differs :
    addHeader blankFirstDoc (lit "lua") (lit "a.lua") noSettings clockA =
      some (getHeaderString (lit "a.lua") noSettings luaProfile none clockA ++
        lit "\nprint(1)\n") ∧
    (addHeader blankFirstDoc (lit "lua") (lit "a.lua") noSettings clockA).bind
      (fun text1 => addHeader text1 (lit "lua") (lit "a.lua") noSettings clockA) =
      some (getHeaderString (lit "a.lua") noSettings luaProfile none clockA ++
        lit "print(1)\n") ∧
    (addHeader blankFirstDoc (lit "lua") (lit "a.lua") noSettings clockA).bind
      (fun text1 => addHeader text1 (lit "lua") (lit "a.lua") noSettings clockA) ≠
      addHeader blankFirstDoc (lit "lua") (lit "a.lua") noSettings clockA := by
  decide!

/-- C4, amended: a second run at the same clock reading leaves the text of the
first run unchanged, provided that a document without a match does not begin
with whitespace, that in the header the first run writes the separator stands
only as the first and the last line, and that the first `Created: ` timestamp
in that header is the one of its Created line. -/
theorem addHeader_idempotent (fileContent languageId fileName : JSString)
    (config : Settings) (now : DateTime) (p : CommentProfile)
    (hp : getCommentProfile languageId = .style p)
    (hws : regexMatch (headerRegex p) fileContent = none → spaceRun fileContent = 0)
    (honly : ∀ i, i < (newHeader p fileContent fileName config now).length →
      occursAt (separator p) (newHeader p fileContent fileName config now) i →
      i = 0 ∨ i + (separator p).length + 2 =
        (newHeader p fileContent fileName config now).length)
    (hcreated : createdMatch (newHeader p fileContent fileName config now) =
      createdShown fileContent languageId now) :
    (addHeader fileContent languageId fileName config now).bind
      (fun text1 => addHeader text1 languageId fileName config now) =
      addHeader fileContent languageId fileName config now := by
  have hne : separator p ≠ [] := separator_ne_nil p (getCommentProfile_style_mem _ _ hp)
  obtain ⟨pre, post, hdec, hpre, hnone, hsome⟩ :=
    applyHeader_decomp p fileContent fileName config now
  have hpost : spaceRun post = 0 := by
    by_cases hm : regexMatch (headerRegex p) fileContent = none
    · rw [(hnone hm).2]; exact hws hm
    · exact hsome hm
  simp only [createdShown, hp] at hcreated
  simp only [addHeader, hp, Option.some_bind, Option.some.injEq, hdec]
  unfold newHeader at honly hcreated hpre ⊢
  exact applyHeader_fixed p pre post fileName config now _ hne honly hcreated hpre hpost

set_option maxRecDepth 1000000 in
/-- C4 on a Lua file that starts with code, with default settings: the three
conditions hold and the second run changes nothing. -/
theorem addHeader_idempotent_witness :
    getCommentProfile (lit "lua") = .style luaProfile ∧
    spaceRun codeDoc = 0 ∧
    occurrences (separator luaProfile)
      (newHeader luaProfile codeDoc (lit "a.lua") noSettings clockA) = [0, 1134] ∧
    createdMatch (newHeader luaProfile codeDoc (lit "a.lua") noSettings clockA) =
      createdShown codeDoc (lit "lua") clockA ∧
    (addHeader codeDoc (lit "lua") (lit "a.lua") noSettings clockA).bind
      (fun text1 => addHeader text1 (lit "lua") (lit "a.lua") noSettings clockA) =
      addHeader codeDoc (lit "lua") (lit "a.lua") noSettings clockA :=
  ⟨by decide, by decide, by decide!, by decide!,
    addHeader_idempotent codeDoc (lit "lua") (lit "a.lua") noSettings clockA luaProfile
      (by decide) (fun _ => by decide)
      (fun i hi hocc =>
        (occursAt_of_occurrences _ _ 0 1134 (by decide!) i hi hocc).imp id
          (fun h => by rw [h]; decide!))
      (by decide!)⟩

/-! ## C5: the header and its own pattern -/

set_option maxRecDepth 1000000 in
/-- C5, as stated, fails: for a file name of 75 tildes the Lua header is 1216
units long and the first match of the detection pattern in it covers only the
first 567, up to the file-name line. -/
theorem header_not_recognised_with_tildeName :
    (getHeaderString tildeName noSettings luaProfile none clockA).length = 1216 ∧
    regexMatch (headerRegex luaProfile)
      (getHeaderString tildeName noSettings luaProfile none clockA) = some (0, 567) ∧
    regexMatch (headerRegex luaProfile)
      (getHeaderString tildeName noSettings luaProfile none clockA) ≠
      some (0, (getHeaderString tildeName noSettings luaProfile none clockA).length) := by
  decide!

/-- C5, amended: for each of the four table profiles, a rendered header in
which the separator stands only at offset 0 and right before the two final
newlines is matched by the detection pattern from offset 0 over its whole
length. -/
theorem header_recognised_as_a_whole (p : CommentProfile) (fileName : JSString)
    (config : Settings) (created : Option JSString) (now : DateTime)
    (hp : p ∈ tableProfiles)
    (honly : ∀ i, i < (getHeaderString fileName config p created now).length →
      occursAt (separator p) (getHeaderString fileName config p created now) i →
      i = 0 ∨ i + (separator p).length + 2 =
        (getHeaderString fileName config p created now).length) :
    regexMatch (headerRegex p) (getHeaderString fileName config p created now) =
      some (0, (getHeaderString fileName config p created now).length) := by
  have h := regexMatch_around_header p [] [] fileName config now created
    (separator_ne_nil p hp) honly (fun i hi => absurd hi (Nat.not_lt_zero _))
  simpa [spaceRun] using h

set_option maxRecDepth 1000000 in
/-- C5 on the default Python header: the separator stands at offsets 0 and 1134
of its 1216 units, and the pattern matches all of it. -/
theorem header_recognised_as_a_whole_witness :
    pythonProfile ∈ tableProfiles ∧
    occurrences (separator pythonProfile)
      (getHeaderString (lit "a.py") noSettings pythonProfile none clockA) = [0, 1134] ∧
    regexMatch (headerRegex pythonProfile)
      (getHeaderString (lit "a.py") noSettings pythonProfile none clockA) =
      some (0, (getHeaderString (lit "a.py") noSettings pythonProfile none clockA).length) :=
  ⟨by decide, by decide!,
    header_recognised_as_a_whole pythonProfile (lit "a.py") noSettings none clockA (by decide)
      (fun i hi hocc =>
        (occursAt_of_occurrences _ _ 0 1134 (by decide!) i hi hocc).imp id
          (fun h => by rw [h]; decide!))⟩

/-! ## C6 to C9: the lines of the header -/

/-- C6: the output of `getHeaderString` is 15 lines joined by single newlines
and followed by two newlines, in the order separator, three pictograph lines,
project banner, blank, file name, blank, author, blank, created, updated,
blank, copyright, separator; the separators are `start`, `width` tildes, `end`
and the blanks are `start`, `width` spaces, `end`. -/
theorem getHeaderString_layout (fileName : JSString) (config : Settings) (p : CommentProfile)
    (created : Option JSString) (now : DateTime) :
    let sep := p.start ++ List.replicate p.width 126 ++ p.end
    let blank := p.start ++ List.replicate p.width 32 ++ p.end
    let wrap := fun content : JSString => p.start ++ content ++ p.end
    let center := fun (content : JSString) (logical : Nat) =>
      padEnd (padStart content ((p.width + logical) / 2) 32) p.width 32
    let authorName := configGet config.authorName (lit "lorem")
    let authorAddress := configGet config.authorAddress (lit "github.com/loremipsum")
    let projectName := configGet config.projectName (lit "projectName")
    let copyright := configGet config.copyright (lit "© \"projectName\" - All rights reserved")
    let updated := getTimestamp now
    let createdShown := orElseString created updated
    let pict1 := wrap (center (lit "{   o   }") 9)
    let pict2 := wrap (center (lit "|   ‾‾‾   |") 9)
    let pict3 := wrap (center (lit "/\\+_______+/\\") 11)
    let banner := wrap (center (lit "───   " ++ projectName ++ lit "   ───")
      (projectName.length + 8))
    let fileLine := wrap (normLine fileName p.width)
    let authorLine := wrap (normLine
      (lit "By: " ++ (authorName ++ lit " <" ++ authorAddress ++ lit ">")) p.width)
    let createdLine := wrap (normLine
      (lit "Created: " ++ createdShown ++ lit " by " ++ authorName) p.width)
    let updatedLine := wrap (normLine
      (lit "Updated: " ++ updated ++ lit " by " ++ authorName) p.width)
    let copyrightLine := wrap (normLine copyright p.width)
    (headerLines fileName config p created now).length = 15 ∧
    getHeaderString fileName config p created now =
      sep ++ [10] ++ pict1 ++ [10] ++ pict2 ++ [10] ++ pict3 ++ [10] ++ banner ++ [10] ++
      blank ++ [10] ++ fileLine ++ [10] ++ blank ++ [10] ++ authorLine ++ [10] ++
      blank ++ [10] ++ createdLine ++ [10] ++ updatedLine ++ [10] ++ blank ++ [10] ++
      copyrightLine ++ [10] ++ sep ++ [10, 10] := by
  intro sep blank wrap center authorName authorAddress projectName copyright updated
    createdShown pict1 pict2 pict3 banner fileLine authorLine createdLine updatedLine
    copyrightLine
  refine ⟨rfl, ?_⟩
  have hnl : lit "\n\n" = [10, 10] := by decide
  simp only [getHeaderString, headerLines, joinLines, hnl, tildeLine_eq, jsRepeat,
    List.append_assoc, List.cons_append, List.nil_append, List.singleton_append, Nat.add_assoc,
    sep, blank, wrap, center, authorName, authorAddress, projectName, copyright, updated,
    createdShown, pict1, pict2, pict3, banner, fileLine, authorLine, createdLine, updatedLine,
    copyrightLine]

/-- C7 at a failing input: with a project name of 70 letters the banner line
of the JavaScript header is 88 units long, the other fourteen lines 80. -/
theorem banner_too_long_with_longProject :
    (headerLines (lit "a.js") longProject javascriptProfile none clockA).map List.length =
      [80, 80, 80, 80, 88, 80, 80, 80, 80, 80, 80, 80, 80, 80, 80] := by
  decide!

/-- C8: the five info lines (file name, author, created, updated, copyright)
are `start + normLine(x, width) + end` for the five documented contents `x`;
with author `ana`, address `a@b` and the profile `("/* ", " */", 74)` the author
line is `/* `, then `By: ana <a@b>` padded with spaces to 74 units, then ` */`. -/
theorem info_lines (fileName : JSString) (config : Settings) (p : CommentProfile)
    (created : Option JSString) (now : DateTime) :
    let lines := headerLines fileName config p created now
    let authorName := configGet config.authorName (lit "lorem")
    let authorAddress := configGet config.authorAddress (lit "github.com/loremipsum")
    let copyright := configGet config.copyright (lit "© \"projectName\" - All rights reserved")
    let updated := getTimestamp now
    let createdShown := orElseString created updated
    lines[6]? = some (p.start ++ normLine fileName p.width ++ p.end) ∧
    lines[8]? = some (p.start ++
      normLine (lit "By: " ++ authorName ++ lit " <" ++ authorAddress ++ lit ">") p.width ++
      p.end) ∧
    lines[10]? = some (p.start ++
      normLine (lit "Created: " ++ createdShown ++ lit " by " ++ authorName) p.width ++ p.end) ∧
    lines[11]? = some (p.start ++
      normLine (lit "Updated: " ++ updated ++ lit " by " ++ authorName) p.width ++ p.end) ∧
    lines[13]? = some (p.start ++ normLine copyright p.width ++ p.end) ∧
    ∀ projectName copyright : Option JSString,
      (headerLines fileName ⟨some (lit "ana"), some (lit "a@b"), projectName, copyright⟩
        ⟨lit "/* ", lit " */", 74⟩ created now)[8]? =
      some (lit "/* " ++ (lit "By: ana <a@b>" ++ List.replicate (74 - 13) 32) ++ lit " */") := by
  refine ⟨rfl, ?_, rfl, rfl, rfl, ?_⟩
  · simp [headerLines, List.append_assoc]
  · intro projectName copyright
    simp only [headerLines, configGet, Option.getD_some, List.getElem?_cons_succ,
      List.getElem?_cons_zero, Option.some.injEq]
    decide

/-- C9: with a prior created timestamp that is `null` or empty, the Created
line carries the formatted current time, the same timestamp as the Updated
line; with a non-empty one the Created line carries exactly that string; the
Updated line carries the formatted current time in every case. -/
theorem created_timestamp_choice (fileName : JSString) (config : Settings) (p : CommentProfile)
    (now : DateTime) :
    let authorName := configGet config.authorName (lit "lorem")
    let createdLine := fun c : JSString =>
      p.start ++ normLine (lit "Created: " ++ c ++ lit " by " ++ authorName) p.width ++ p.end
    let updatedLine :=
      p.start ++ normLine (lit "Updated: " ++ getTimestamp now ++ lit " by " ++ authorName)
        p.width ++ p.end
    (headerLines fileName config p none now)[10]? = some (createdLine (getTimestamp now)) ∧
    (headerLines fileName config p (some []) now)[10]? = some (createdLine (getTimestamp now)) ∧
    (∀ (x : Nat) (s : JSString),
      (headerLines fileName config p (some (x :: s)) now)[10]? = some (createdLine (x :: s))) ∧
    ∀ created : Option JSString,
      (headerLines fileName config p created now)[11]? = some updatedLine :=
  ⟨rfl, rfl, fun _ _ => rfl, fun _ => rfl⟩

/-! ## C10: a Created entry of another form -/

set_option maxRecDepth 100000 in
/-- C10, as stated, fails: the block of `twoLinesDoc` has a Created line at
offset 83 whose timestamp has dashes in the date, yet the command does not take
the prior created timestamp as absent: the created pattern matches the second
Created line of the block, and the command shows `2019/12/31 23:59:59`, not the
current time. -/
theorem malformed_created_line_not_absent :
    getCommentProfile (lit "python") = .style pythonProfile ∧
    regexMatch (headerRegex pythonProfile) twoLinesDoc = some (0, 242) ∧
    occursAt (lit "Created: ") ((twoLinesDoc.drop 0).take 242) 83 ∧
    hasTimestampForm ((((twoLinesDoc.drop 0).take 242).drop (83 + 9)).take 19) = false ∧
    priorCreated twoLinesDoc (some (0, 242)) = some (lit "2019/12/31 23:59:59") ∧
    createdShown twoLinesDoc (lit "python") clockB = some (lit "2019/12/31 23:59:59") ∧
    createdShown twoLinesDoc (lit "python") clockB ≠ some (getTimestamp clockB) := by
  decide!

/-- C10, amended: when no `Created: ` in the matched header is followed by a timestamp
of the form `YYYY/MM/DD HH:mm:ss`, the command treats the prior created
timestamp as absent: the created timestamp it shows is the updated one, the
formatted current time, and the header is the one rendered without a prior
timestamp. -/
theorem unparsable_created_is_absent (fileContent languageId fileName : JSString)
    (config : Settings) (now : DateTime) (p : CommentProfile) (idx len : Nat)
    (hp : getCommentProfile languageId = .style p)
    (hm : regexMatch (headerRegex p) fileContent = some (idx, len))
    (hbad : ∀ i, i < ((fileContent.drop idx).take len).length →
      occursAt (lit "Created: ") ((fileContent.drop idx).take len) i →
      hasTimestampForm ((((fileContent.drop idx).take len).drop (i + 9)).take 19) = false) :
    priorCreated fileContent (some (idx, len)) = none ∧
    createdShown fileContent languageId now = some (getTimestamp now) ∧
    addHeader fileContent languageId fileName config now =
      some (fileContent.take idx ++ getHeaderString fileName config p none now ++
        fileContent.drop (idx + len)) := by
  have hnone : priorCreated fileContent (some (idx, len)) = none := by
    simp [priorCreated, (createdMatch_eq_none _).2 hbad]
  refine ⟨hnone, ?_, ?_⟩
  · simp [createdShown, hp, hm, hnone, orElseString]
  · simp [addHeader, hp, applyHeader, newHeader, hm, hnone]

set_option maxRecDepth 100000 in
/-- C10 on `dashedDoc`: its Created entry at offset 83 has dashes in the date,
and the command shows the current time as created timestamp. -/
theorem unparsable_created_is_absent_witness :
    getCommentProfile (lit "python") = .style pythonProfile ∧
    regexMatch (headerRegex pythonProfile) dashedDoc = some (0, 202) ∧
    occursAt (lit "Created: ") ((dashedDoc.drop 0).take 202) 83 ∧
    hasTimestampForm ((((dashedDoc.drop 0).take 202).drop (83 + 9)).take 19) = false ∧
    createdShown dashedDoc (lit "python") clockB = some (getTimestamp clockB) :=
  ⟨by decide, by decide!, by decide!, by decide!,
    (unparsable_created_is_absent dashedDoc (lit "python") (lit "a.py") noSettings clockB
      pythonProfile 0 202 (by decide) (by decide!) (by decide!)).2.1⟩

/-! ## More facts on profiles, `normLine` and timestamps -/

/-- A language identifier that is neither one of the four table names nor a
name inherited from `Object.prototype` gets the JavaScript profile. -/
theorem getCommentProfile_default (languageId : JSString)
    (h1 : languageId ≠ lit "lua") (h2 : languageId ≠ lit "python")
    (h3 : languageId ≠ lit "javascript") (h4 : languageId ≠ lit "typescript")
    (h5 : languageId ∉ objectPrototypeKeys) :
    getCommentProfile languageId = .style javascriptProfile := by
  simp [getCommentProfile, commentStylesGet, h1, h2, h3, h4, h5]

/-- `normLine` as the kept part of the content followed by spaces. -/
theorem normLine_eq (content : JSString) (w : Nat) :
    normLine content w =
      content.take (min content.length w) ++ List.replicate (w - min content.length w) 32 := by
  simp only [normLine, padEnd, substring0, List.length_take]
  rw [Nat.min_comm w content.length]
  congr 1
  rcases Nat.le_total content.length w with h | h
  · rw [Nat.min_eq_left h, List.take_of_length_le h, List.take_of_length_le (Nat.le_refl _)]
  · rw [Nat.min_eq_right h]

/-- The unit of a decimal digit. -/
theorem digitChar_toNat : ∀ m, m < 10 → (Nat.digitChar m).toNat = 48 + m := by
  decide

/-- A number below 100, padded to two units, is its two decimal digits. -/
theorem pad2_eq : ∀ n, n < 100 → pad2 n = [48 + n / 10, 48 + n % 10] := by
  decide!

/-- A number from 1000 to 9999 is written with its four decimal digits. -/
theorem natToString_four (n : Nat) (h1 : 1000 ≤ n) (h2 : n < 10000) :
    natToString n = [48 + n / 1000, 48 + n / 100 % 10, 48 + n / 10 % 10, 48 + n % 10] := by
  obtain ⟨k, rfl⟩ : ∃ k, n = k + 3 := ⟨n - 3, by omega⟩
  have e1 : (k + 3) / 10 ≠ 0 := by omega
  have e2 : (k + 3) / 10 / 10 ≠ 0 := by omega
  have e3 : (k + 3) / 10 / 10 / 10 ≠ 0 := by omega
  have e4 : (k + 3) / 10 / 10 / 10 / 10 = 0 := by omega
  simp only [natToString, Nat.toDigits, Nat.toDigitsCore, e1, e2, e3, e4, if_true, if_false,
    List.map_cons, List.map_nil]
  rw [digitChar_toNat _ (Nat.mod_lt _ (by decide)), digitChar_toNat _ (Nat.mod_lt _ (by decide)),
    digitChar_toNat _ (Nat.mod_lt _ (by decide)), digitChar_toNat _ (Nat.mod_lt _ (by decide))]
  have a1 : (k + 3) / 10 / 10 / 10 % 10 = (k + 3) / 1000 := by omega
  have a2 : (k + 3) / 10 / 10 % 10 = (k + 3) / 100 % 10 := by omega
  rw [a1, a2]

/-- The timestamp of a clock reading with a year from 1000 to 9999, unit by
unit. -/
theorem getTimestamp_eq (d : DateTime) (hv : d.Valid) (y : Nat) (hy : d.year = (y : Int))
    (h1 : 1000 ≤ y) (h2 : y < 10000) :
    getTimestamp d =
      [48 + y / 1000, 48 + y / 100 % 10, 48 + y / 10 % 10, 48 + y % 10, 47,
       48 + (d.month + 1) / 10, 48 + (d.month + 1) % 10, 47,
       48 + d.date / 10, 48 + d.date % 10, 32,
       48 + d.hours / 10, 48 + d.hours % 10, 58,
       48 + d.minutes / 10, 48 + d.minutes % 10, 58,
       48 + d.seconds / 10, 48 + d.seconds % 10] := by
  obtain ⟨-, -, hm, -, hd, hh, hmi, hs⟩ := hv
  have hY : intToString d.year = natToString y := by rw [hy]; rfl
  simp only [getTimestamp, hY, natToString_four y h1 h2, pad2_eq _ (by omega : d.month + 1 < 100),
    pad2_eq _ (by omega : d.date < 100), pad2_eq _ (by omega : d.hours < 100),
    pad2_eq _ (by omega : d.minutes < 100), pad2_eq _ (by omega : d.seconds < 100)]
  rfl

/-- String order on two equal first units is the order of the rest. -/
theorem strLe_cons_same (c : Nat) (s t : JSString) : strLe (c :: s) (c :: t) = strLe s t := by
  simp [strLe]

/-- String order on two-digit numbers followed by more text. -/
theorem strLe_two (m n : Nat) (hn : n < 100) (s t : JSString) :
    strLe ((48 + m / 10) :: (48 + m % 10) :: s) ((48 + n / 10) :: (48 + n % 10) :: t) =
      (decide (m < n) || (decide (m = n) && strLe s t)) := by
  rcases Nat.lt_trichotomy m n with h | h | h
  · have : m / 10 < n / 10 ∨ (m / 10 = n / 10 ∧ m % 10 < n % 10) := by omega
    rcases this with h' | ⟨h', h''⟩
    · simp [strLe, h, h']
    · simp [strLe, h, h', h'']
  · subst h
    simp [strLe]
  · have : n / 10 < m / 10 ∨ (m / 10 = n / 10 ∧ n % 10 < m % 10) := by omega
    have hne : ¬ m = n := by omega
    have hnl : ¬ m < n := by omega
    rcases this with h' | ⟨h', h''⟩
    · have h1 : ¬ m / 10 < n / 10 := by omega
      have h2 : ¬ m / 10 = n / 10 := by omega
      simp [strLe, hne, hnl, h1, h2]
    · have h1 : ¬ m % 10 < n % 10 := by omega
      have h2 : ¬ m % 10 = n % 10 := by omega
      simp [strLe, hne, hnl, h', h1, h2]

/-- String order on four-digit numbers followed by more text. -/
theorem strLe_four (m n : Nat) (hn : n < 10000) (s t : JSString) :
    strLe ((48 + m / 1000) :: (48 + m / 100 % 10) :: (48 + m / 10 % 10) :: (48 + m % 10) :: s)
        ((48 + n / 1000) :: (48 + n / 100 % 10) :: (48 + n / 10 % 10) :: (48 + n % 10) :: t) =
      (decide (m < n) || (decide (m = n) && strLe s t)) := by
  have h1 := strLe_two (m / 100) (n / 100) (by omega)
    ((48 + m % 100 / 10) :: (48 + m % 100 % 10) :: s)
    ((48 + n % 100 / 10) :: (48 + n % 100 % 10) :: t)
  have h2 := strLe_two (m % 100) (n % 100) (by omega) s t
  rw [h2] at h1
  have e1 : m / 100 / 10 = m / 1000 := by omega
  have e2 : n / 100 / 10 = n / 1000 := by omega
  have e3 : m % 100 / 10 = m / 10 % 10 := by omega
  have e4 : n % 100 / 10 = n / 10 % 10 := by omega
  have e5 : m % 100 % 10 = m % 10 := by omega
  have e6 : n % 100 % 10 = n % 10 := by omega
  rw [e1, e2, e3, e4, e5, e6] at h1
  rw [h1]
  rcases Nat.lt_trichotomy m n with h | h | h
  · have : m / 100 < n / 100 ∨ (m / 100 = n / 100 ∧ m % 100 < n % 100) := by omega
    rcases this with h' | ⟨h', h''⟩
    · simp [h, h']
    · simp [h, h', h'']
  · subst h
    simp
  · have hne : ¬ m = n := by omega
    have hnl : ¬ m < n := by omega
    have : n / 100 < m / 100 ∨ (m / 100 = n / 100 ∧ n % 100 < m % 100) := by omega
    rcases this with h' | ⟨h', h''⟩
    · have h1 : ¬ m / 100 < n / 100 := by omega
      have h2 : ¬ m / 100 = n / 100 := by omega
      simp [hne, hnl, h1, h2]
    · have h1 : ¬ m % 100 < n % 100 := by omega
      have h2 : ¬ m % 100 = n % 100 := by omega
      simp [hne, hnl, h', h1, h2]

/-! ## Setting values of any type, and the end of the replaced span -/

/-- On a store of strings the lines for values of any type are the lines of
`headerLines`. -/
theorem headerLinesRaw_toRaw (fileName : JSString) (config : Settings) (p : CommentProfile)
    (created : Option JSString) (now : DateTime) :
    headerLinesRaw fileName config.toRaw p created now =
      some (headerLines fileName config p created now) := by
  obtain ⟨a, b, c, d⟩ := config
  cases a <;> cases b <;> cases c <;> cases d <;> rfl

/-- On a store of strings `getHeaderString` for values of any type returns the
string of `getHeaderString`. -/
theorem getHeaderStringRaw_toRaw (fileName : JSString) (config : Settings) (p : CommentProfile)
    (created : Option JSString) (now : DateTime) :
    getHeaderStringRaw fileName config.toRaw p created now =
      some (getHeaderString fileName config p created now) := by
  simp [getHeaderStringRaw, headerLinesRaw_toRaw, getHeaderString]

/-- A text without leading whitespace is empty or starts with a unit that is
no whitespace. -/
theorem spaceRun_eq_zero (s : JSString) (h : spaceRun s = 0) :
    s = [] ∨ ∃ x rest, s = x :: rest ∧ isSpace x = false := by
  cases s with
  | nil => exact Or.inl rfl
  | cons x rest =>
    right
    refine ⟨x, rest, rfl, ?_⟩
    by_contra hx
    simp only [Bool.not_eq_false] at hx
    simp [spaceRun, List.takeWhile_cons, hx] at h

/-- Dropping the leading whitespace run is `dropWhile`. -/
theorem drop_spaceRun (s : JSString) : s.drop (spaceRun s) = s.dropWhile isSpace := by
  induction s with
  | nil => rfl
  | cons x s ih =>
    by_cases hx : isSpace x = true
    · simpa [spaceRun, List.takeWhile_cons, List.dropWhile_cons, hx] using ih
    · simp [spaceRun, List.takeWhile_cons, List.dropWhile_cons, hx]

/-- The separators of the table end in a unit that is no whitespace. -/
theorem separator_getLast (p : CommentProfile) (hp : p ∈ tableProfiles) :
    ∃ x, (separator p).getLast? = some x ∧ isSpace x = false := by
  simp only [tableProfiles, List.mem_cons, List.mem_singleton, List.not_mem_nil, or_false] at hp
  rcases hp with rfl | rfl | rfl | rfl
  · exact ⟨45, by decide, by decide⟩
  · exact ⟨35, by decide, by decide⟩
  · exact ⟨47, by decide, by decide⟩
  · exact ⟨47, by decide, by decide⟩

/-- The new header ends with a separator and two newlines. -/
theorem newHeader_ends (p : CommentProfile) (fileContent fileName : JSString)
    (config : Settings) (now : DateTime) :
    ∃ body, newHeader p fileContent fileName config now = body ++ separator p ++ [10, 10] := by
  obtain ⟨X, hX⟩ := getHeaderString_frame fileName config p
    (priorCreated fileContent (regexMatch (headerRegex p) fileContent)) now
  exact ⟨separator p ++ 10 :: (X ++ [10]), by rw [newHeader, hX]; simp⟩

/-! ## C11 and C12: the profile of a language -/

/-- C11: `getCommentProfile` returns the documented triple for each of the
four supported language identifiers. -/
theorem getCommentProfile_table :
    getCommentProfile (lit "lua") = .style ⟨lit "-- ", lit "--", 75⟩ ∧
    getCommentProfile (lit "python") = .style ⟨lit "# ", lit " #", 76⟩ ∧
    getCommentProfile (lit "javascript") = .style ⟨lit "/* ", lit " */", 74⟩ ∧
    getCommentProfile (lit "typescript") = .style ⟨lit "/* ", lit " */", 74⟩ := by
  decide

/-- C12 at failing inputs: for `constructor` and `toString` the lookup finds
the member inherited from `Object.prototype`, which is truthy, so the default
is not taken and the command then fails on `commentProfile.start.replace`;
the empty string and `Lua` do get the JavaScript profile. -/
theorem getCommentProfile_inherited_names :
    getCommentProfile (lit "constructor") = .inherited ∧
    getCommentProfile (lit "toString") = .inherited ∧
    getCommentProfile (lit "constructor") ≠ .style javascriptProfile ∧
    addHeader codeDoc (lit "constructor") (lit "a.lua") noSettings clockA = none ∧
    getCommentProfile (lit "") = .style javascriptProfile ∧
    getCommentProfile (lit "Lua") = .style javascriptProfile := by
  decide

/-! ## C13: the width of `normLine` -/

/-- C13: `normLine` returns exactly `width` units, whatever the length of the
content. -/
theorem normLine_has_width (content : JSString) (width : Nat) :
    (normLine content width).length = width :=
  length_normLine content width

/-! ## C14 and C15: the timestamp -/

/-- C14, as stated, fails: the first second of the year 10000 is a valid clock
reading and its timestamp has 20 units, five of them for the year. -/
theorem getTimestamp_year_10000 :
    firstOf10000.Valid ∧
    getTimestamp firstOf10000 = lit "10000/01/01 00:00:00" ∧
    (getTimestamp firstOf10000).length ≠ 19 ∧
    hasTimestampForm (getTimestamp firstOf10000) = false := by
  decide

/-- C14, amended: for every clock reading with a year from 1000 to 9999,
`getTimestamp` returns 19 units of the form `YYYY/MM/DD HH:mm:ss`: the four
digits of the year, a slash, the two digits of the month number (the month
index plus one), a slash, the two digits of the day, a space, and the two
digits each of hour, minute and second with colons between. -/
theorem getTimestamp_has_form (d : DateTime) (hv : d.Valid) (h1 : 1000 ≤ d.year)
    (h2 : d.year ≤ 9999) :
    (getTimestamp d).length = 19 ∧
    hasTimestampForm (getTimestamp d) = true ∧
    getTimestamp d =
      [48 + d.year.toNat / 1000, 48 + d.year.toNat / 100 % 10, 48 + d.year.toNat / 10 % 10,
       48 + d.year.toNat % 10, 47,
       48 + (d.month + 1) / 10, 48 + (d.month + 1) % 10, 47,
       48 + d.date / 10, 48 + d.date % 10, 32,
       48 + d.hours / 10, 48 + d.hours % 10, 58,
       48 + d.minutes / 10, 48 + d.minutes % 10, 58,
       48 + d.seconds / 10, 48 + d.seconds % 10] := by
  have heq := getTimestamp_eq d hv d.year.toNat (by omega) (by omega) (by omega)
  obtain ⟨-, -, hm, -, hd, hh, hmi, hs⟩ := hv
  refine ⟨by rw [heq]; rfl, ?_, heq⟩
  rw [heq]
  simp only [hasTimestampForm, isDigit, Bool.and_eq_true, decide_eq_true_eq, and_true]
  omega

/-- C14 on the clock reading of 5 January 2024, 03:04:05. -/
theorem getTimestamp_has_form_witness :
    clockA.Valid ∧ (1000 : Int) ≤ clockA.year ∧ clockA.year ≤ 9999 ∧
    getTimestamp clockA = lit "2024/01/05 03:04:05" ∧
    (getTimestamp clockA).length = 19 :=
  ⟨by decide, by decide, by decide, by decide,
    (getTimestamp_has_form clockA (by decide) (by decide) (by decide)).1⟩

/-- C15, as stated, fails: the last second of 9999 is not later than the
first second of 10000, yet its timestamp `9999/12/31 23:59:59` is greater in
string order than `10000/01/01 00:00:00`. -/
theorem getTimestamp_goes_back_at_10000 :
    lastOf9999.notLater firstOf10000 ∧
    lastOf9999.Valid ∧ firstOf10000.Valid ∧
    getTimestamp lastOf9999 = lit "9999/12/31 23:59:59" ∧
    getTimestamp firstOf10000 = lit "10000/01/01 00:00:00" ∧
    strLe (getTimestamp lastOf9999) (getTimestamp firstOf10000) = false := by
  decide

/-- C15, amended: for two clock readings with years from 1000 to 9999, the
first not later than the second, the timestamp of the first is less than or
equal to that of the second in the string order of code units. -/
theorem getTimestamp_monotone (a b : DateTime) (ha : a.Valid) (hb : b.Valid)
    (ha1 : 1000 ≤ a.year) (ha2 : a.year ≤ 9999) (hb1 : 1000 ≤ b.year) (hb2 : b.year ≤ 9999)
    (hab : a.notLater b) : strLe (getTimestamp a) (getTimestamp b) = true := by
  obtain ⟨y, hy⟩ : ∃ y : Nat, a.year = (y : Int) := ⟨a.year.toNat, by omega⟩
  obtain ⟨z, hz⟩ : ∃ z : Nat, b.year = (z : Int) := ⟨b.year.toNat, by omega⟩
  rw [getTimestamp_eq a ha y hy (by omega) (by omega),
    getTimestamp_eq b hb z hz (by omega) (by omega)]
  obtain ⟨-, -, hm, -, hd, hh, hmi, hs⟩ := ha
  obtain ⟨-, -, hm', -, hd', hh', hmi', hs'⟩ := hb
  unfold DateTime.notLater at hab
  rw [hy, hz] at hab
  rw [strLe_four y z (by omega), strLe_cons_same,
    strLe_two _ _ (by omega), strLe_cons_same,
    strLe_two _ _ (by omega), strLe_cons_same,
    strLe_two _ _ (by omega), strLe_cons_same,
    strLe_two _ _ (by omega), strLe_cons_same,
    strLe_two _ _ (by omega)]
  simp only [strLe, Bool.or_eq_true, Bool.and_eq_true, decide_eq_true_eq, and_true]
  omega

/-- C15 on the clock readings of 5 January 2024 and 7 March 2025. -/
theorem getTimestamp_monotone_witness :
    clockA.Valid ∧ clockB.Valid ∧ clockA.notLater clockB ∧
    strLe (lit "2024/01/05 03:04:05") (lit "2025/03/07 10:20:30") = true :=
  ⟨by decide, by decide, by decide,
    (show strLe (getTimestamp clockA) (getTimestamp clockB) = true from
      getTimestamp_monotone clockA clockB (by decide) (by decide) (by decide) (by decide)
        (by decide) (by decide) (by decide))⟩

/-! ## C16 and C17: settings -/

/-- C16: a key without a user value takes its documented default: the header
is the one rendered with `lorem`, `github.com/loremipsum`, `projectName` and
the literal copyright text (whatever the project name is set to) in place of
the missing value, and with an empty store the author line is `start`,
`normLine("By: lorem <github.com/loremipsum>", width)`, `end`. -/
theorem settings_defaults (fileName : JSString) (p : CommentProfile)
    (created : Option JSString) (now : DateTime) (a b c d : Option JSString) :
    getHeaderString fileName ⟨none, b, c, d⟩ p created now =
      getHeaderString fileName ⟨some (lit "lorem"), b, c, d⟩ p created now ∧
    getHeaderString fileName ⟨a, none, c, d⟩ p created now =
      getHeaderString fileName ⟨a, some (lit "github.com/loremipsum"), c, d⟩ p created now ∧
    getHeaderString fileName ⟨a, b, none, d⟩ p created now =
      getHeaderString fileName ⟨a, b, some (lit "projectName"), d⟩ p created now ∧
    getHeaderString fileName ⟨a, b, c, none⟩ p created now =
      getHeaderString fileName
        ⟨a, b, c, some (lit "© \"projectName\" - All rights reserved")⟩ p created now ∧
    (headerLines fileName ⟨none, none, none, none⟩ p created now)[8]? =
      some (p.start ++ normLine (lit "By: lorem <github.com/loremipsum>") p.width ++ p.end) := by
  refine ⟨rfl, rfl, rfl, rfl, ?_⟩
  simp only [headerLines, configGet, Option.getD_none, List.getElem?_cons_succ,
    List.getElem?_cons_zero, Option.some.injEq]
  congr 2

/-- C17, as stated, fails: with the number 2024 as copyright `normLine` calls
`substring` on a number, and with `null` as project name `projectName.length`
reads a property of `null`; both are a `TypeError`. -/
theorem getHeaderStringRaw_throws :
    getHeaderStringRaw (lit "a.js") numberCopyright javascriptProfile none clockA = none ∧
    getHeaderStringRaw (lit "a.js") nullProject javascriptProfile none clockA = none := by
  decide

/-- C17, amended: `getHeaderString` raises no exception and returns a string
for every file name, profile, prior created timestamp and settings store in
which the project name is not `null` and the copyright, when present, is a
string; the author name, the author address and the project name may be
numbers or booleans, the first two also `null`. -/
theorem getHeaderStringRaw_total (fileName : JSString) (config : RawSettings)
    (p : CommentProfile) (created : Option JSString) (now : DateTime)
    (hproject : config.projectName ≠ some .null)
    (hcopyright : ∀ v, config.copyright = some v → ∃ c, v = .str c) :
    ∃ header, getHeaderStringRaw fileName config p created now = some header := by
  obtain ⟨a, b, c, d⟩ := config
  simp only at hproject hcopyright
  have hd : ∃ s, rawGet d (lit "© \"projectName\" - All rights reserved") = .str s := by
    cases d with
    | none => exact ⟨_, rfl⟩
    | some v =>
      obtain ⟨s, rfl⟩ := hcopyright v rfl
      exact ⟨s, rfl⟩
  obtain ⟨s, hs⟩ := hd
  have hc : rawGet c (lit "projectName") ≠ .null := by
    cases c with
    | none => simp [rawGet]
    | some v =>
      intro h
      apply hproject
      simp only [rawGet, Option.getD_some] at h
      rw [h]
  simp only [getHeaderStringRaw, headerLinesRaw, hs]
  cases hpn : rawGet c (lit "projectName") with
  | null => exact absurd hpn hc
  | str t => exact ⟨_, rfl⟩
  | num t => exact ⟨_, rfl⟩
  | bool t => exact ⟨_, rfl⟩

/-- C17 on a store with a number as author name, `null` as author address and
a number as project name: a header is returned. -/
theorem getHeaderStringRaw_total_witness :
    oddButHarmless.projectName ≠ some .null ∧
    (∀ v, oddButHarmless.copyright = some v → ∃ c, v = .str c) ∧
    ∃ header, getHeaderStringRaw (lit "a.js") oddButHarmless javascriptProfile none clockA =
      some header :=
  have hproject : oddButHarmless.projectName ≠ some .null := by decide
  have hcopyright : ∀ v, oddButHarmless.copyright = some v → ∃ c, v = JSValue.str c :=
    fun v h => by cases h
  ⟨hproject, hcopyright,
    getHeaderStringRaw_total (lit "a.js") oddButHarmless javascriptProfile none clockA
      hproject hcopyright⟩

/-! ## C18 and C19: truncation, padding and centring -/

/-- C18: the first `min(content.length, width)` units of `normLine(content,
width)` are those of the content and all units after them are spaces; a
content of at most `width` units is the start of the result; and `normLine`
applied to its own result changes nothing. -/
theorem normLine_truncates_then_pads (content : JSString) (width : Nat) :
    (normLine content width).take (min content.length width) =
      content.take (min content.length width) ∧
    (normLine content width).drop (min content.length width) =
      List.replicate (width - min content.length width) 32 ∧
    (∀ k : Nat, content <+: normLine content (content.length + k)) ∧
    normLine (normLine content width) width = normLine content width := by
  have hlen : (content.take (min content.length width)).length = min content.length width := by
    simp
  refine ⟨?_, ?_, ?_, ?_⟩
  · rw [normLine_eq, List.take_left' hlen]
  · rw [normLine_eq, List.drop_left' hlen]
  · intro k
    rw [normLine_eq, Nat.min_eq_left (Nat.le_add_right _ _), List.take_of_length_le (Nat.le_refl _)]
    exact List.prefix_append _ _
  · have h := length_normLine content width
    simp only [normLine, padEnd, substring0] at h ⊢
    rw [List.take_of_length_le (Nat.le_of_eq h), h]
    simp

/-- C19 at a failing input: in the JavaScript header with default settings the
first pictograph line has 32 spaces before and 33 after its content, but the
second has 30 and 33, the third 29 and 32, and the banner 23 and 28; each
content is 74 units long. -/
theorem decorative_lines_off_centre :
    (headerLines (lit "a.js") noSettings javascriptProfile none clockA)[1]? =
      some (lit "/* " ++ (List.replicate 32 32 ++ lit "{   o   }" ++ List.replicate 33 32) ++
        lit " */") ∧
    (headerLines (lit "a.js") noSettings javascriptProfile none clockA)[2]? =
      some (lit "/* " ++ (List.replicate 30 32 ++ lit "|   ‾‾‾   |" ++ List.replicate 33 32) ++
        lit " */") ∧
    (headerLines (lit "a.js") noSettings javascriptProfile none clockA)[3]? =
      some (lit "/* " ++ (List.replicate 29 32 ++ lit "/\\+_______+/\\" ++
        List.replicate 32 32) ++ lit " */") ∧
    (headerLines (lit "a.js") noSettings javascriptProfile none clockA)[4]? =
      some (lit "/* " ++ (List.replicate 23 32 ++ lit "───   projectName   ───" ++
        List.replicate 28 32) ++ lit " */") ∧
    (List.replicate 30 32 ++ lit "|   ‾‾‾   |" ++ List.replicate 33 32).length = 74 ∧
    (List.replicate 29 32 ++ lit "/\\+_______+/\\" ++ List.replicate 32 32).length = 74 ∧
    (List.replicate 23 32 ++ lit "───   projectName   ───" ++ List.replicate 28 32).length =
      74 := by
  decide!

/-! ## C20: the whitespace after the old header -/

/-- C20: when the detection pattern matches, the replaced span runs from the
first separator through all whitespace after the closing separator: the text
after the command is the text before the match, the new header, which ends
with a separator (whose last unit is no whitespace) and exactly two newlines,
and the rest of the document after the whitespace that followed the old
closing separator; that rest is empty or starts with a unit that is no
whitespace. -/
theorem replaced_span_swallows_whitespace (fileContent languageId fileName : JSString)
    (config : Settings) (now : DateTime) (p : CommentProfile) (idx len : Nat)
    (hp : getCommentProfile languageId = .style p)
    (hm : regexMatch (headerRegex p) fileContent = some (idx, len)) :
    ∃ body closing rest,
      newHeader p fileContent fileName config now = body ++ separator p ++ [10, 10] ∧
      (∃ x, (separator p).getLast? = some x ∧ isSpace x = false) ∧
      idx + (separator p).length ≤ closing ∧
      occursAt (separator p) fileContent closing ∧
      rest = (fileContent.drop (closing + (separator p).length)).dropWhile isSpace ∧
      rest = fileContent.drop (idx + len) ∧
      (rest = [] ∨ ∃ x tail, rest = x :: tail ∧ isSpace x = false) ∧
      addHeader fileContent languageId fileName config now =
        some (fileContent.take idx ++ newHeader p fileContent fileName config now ++ rest) := by
  obtain ⟨body, hbody⟩ := newHeader_ends p fileContent fileName config now
  obtain ⟨-, -, j, hj1, -, hj3, -, hlen⟩ := (regexMatch_headerRegex_eq_some p _ _ _).1 hm
  have hrest : fileContent.drop (idx + len) =
      (fileContent.drop (j + (separator p).length)).dropWhile isSpace := by
    rw [hlen, ← List.drop_drop, drop_spaceRun]
  have hzero : spaceRun (fileContent.drop (idx + len)) = 0 := by
    rw [hlen, ← List.drop_drop]
    exact spaceRun_drop_spaceRun _
  refine ⟨body, j, fileContent.drop (idx + len), hbody,
    separator_getLast p (getCommentProfile_style_mem _ _ hp), hj1, hj3, hrest, rfl,
    spaceRun_eq_zero _ hzero, ?_⟩
  simp [addHeader, hp, applyHeader, hm]

set_option maxRecDepth 100000 in
/-- C20 on `pyDoc`: the two blank lines and the indentation after the old block
go, and the code follows the new header directly. -/
theorem replaced_span_swallows_whitespace_witness :
    getCommentProfile (lit "python") = .style pythonProfile ∧
    regexMatch (headerRegex pythonProfile) pyDoc = some (18, 174) ∧
    pyDoc.drop (18 + 174) = lit "x = 1\n" ∧
    ∃ body closing rest,
      newHeader pythonProfile pyDoc (lit "a.py") noSettings clockA =
        body ++ separator pythonProfile ++ [10, 10] ∧
      (∃ x, (separator pythonProfile).getLast? = some x ∧ isSpace x = false) ∧
      18 + (separator pythonProfile).length ≤ closing ∧
      occursAt (separator pythonProfile) pyDoc closing ∧
      rest = (pyDoc.drop (closing + (separator pythonProfile).length)).dropWhile isSpace ∧
      rest = pyDoc.drop (18 + 174) ∧
      (rest = [] ∨ ∃ x tail, rest = x :: tail ∧ isSpace x = false) ∧
      addHeader pyDoc (lit "python") (lit "a.py") noSettings clockA =
        some (pyDoc.take 18 ++ newHeader pythonProfile pyDoc (lit "a.py") noSettings clockA ++
          rest) :=
  ⟨by decide, by decide!, by decide!,
    replaced_span_swallows_whitespace pyDoc (lit "python") (lit "a.py") noSettings clockA
      pythonProfile 18 174 (by decide) (by decide!)⟩

end FtNormHeader
